import Mathlib

/-!
Shallow embedding of the agent-workflow core of the document-review app
(`src/App.tsx`, `src/unnamed/part_001`, `src/unnamed/part_002`,
`src/services/apiService.ts`).  JavaScript strings are modelled as
`List Char`; the platform `JSON.parse` / `JSON.stringify` pair is modelled
by an executable parser and printer over an explicit JSON value type
(numbers restricted to integers, since IEEE-754 float semantics is outside
the embedding).  All definitions are executable.
-/

set_option maxHeartbeats 1000000

namespace DocReview

/-- JavaScript strings are modelled as lists of characters. -/
abbrev Str := List Char

/-- Leftmost index at which `pat` occurs as a substring of `s`
(model of the position where a JS regex/`String.prototype.match`
anchors a literal pattern). -/
def firstMatch (pat : Str) : Str → Option Nat
  | [] => if pat = [] then some 0 else none
  | c :: rest =>
    if pat.isPrefixOf (c :: rest) then some 0
    else (firstMatch pat rest).map (· + 1)

/-- Model of JavaScript `String.prototype.includes`. -/
def containsStr (s pat : Str) : Bool := (firstMatch pat s).isSome

/-- Model of JavaScript `String.prototype.toLowerCase` (ASCII range,
which covers every string the app lowercases). -/
def toLowerStr (s : Str) : Str := s.map Char.toLower

/-- The pattern `pat` occurs in `t` starting at index `i`. -/
def occursAt (pat t : Str) (i : Nat) : Prop := pat <+: t.drop i

instance (pat t : Str) (i : Nat) : Decidable (occursAt pat t i) := by
  unfold occursAt; infer_instance

/-- The least index at which `pat` occurs in `t`. -/
def leastOcc (pat t : Str) (i : Nat) : Prop :=
  occursAt pat t i ∧ ∀ j < i, ¬ occursAt pat t j

instance (pat t : Str) (i : Nat) : Decidable (leastOcc pat t i) := by
  unfold leastOcc; infer_instance

/-- JSON values, as produced by the platform `JSON.parse`.  Numbers are
restricted to integers (the app's own JSON payloads are integral); object
fields are kept in textual order. -/
inductive Json where
  | null : Json
  | bool : Bool → Json
  | num : Int → Json
  | str : Str → Json
  | arr : List Json → Json
  | obj : List (Str × Json) → Json

theorem sizeOf_lt_of_mem_json {x : Json} {xs : List Json} (h : x ∈ xs) :
    sizeOf x < sizeOf (Json.arr xs) := by
  have := List.sizeOf_lt_of_mem h
  simp only [Json.arr.sizeOf_spec]
  omega

theorem sizeOf_lt_of_mem_fields {kv : Str × Json} {fs : List (Str × Json)} (h : kv ∈ fs) :
    sizeOf kv.2 < sizeOf (Json.obj fs) := by
  have h1 := List.sizeOf_lt_of_mem h
  have h2 : sizeOf kv.2 < sizeOf kv := by
    obtain ⟨k, v⟩ := kv
    simp only [Prod.mk.sizeOf_spec]
    omega
  simp only [Json.obj.sizeOf_spec]
  omega

/-- Structural induction principle for `Json` that exposes list members
directly (the automatically generated recursor of the nested inductive is
awkward to use). -/
theorem Json.indOn (P : Json → Prop)
    (hnull : P .null)
    (hbool : ∀ b, P (.bool b))
    (hnum : ∀ n, P (.num n))
    (hstr : ∀ s, P (.str s))
    (harr : ∀ xs, (∀ x ∈ xs, P x) → P (.arr xs))
    (hobj : ∀ fs, (∀ kv ∈ fs, P kv.2) → P (.obj fs)) :
    ∀ v, P v := by
  have main : ∀ n v, sizeOf v ≤ n → P v := by
    intro n
    induction n using Nat.strong_induction_on with
    | _ n ih =>
      intro v hv
      match v with
      | .null => exact hnull
      | .bool b => exact hbool b
      | .num m => exact hnum m
      | .str s => exact hstr s
      | .arr xs =>
        refine harr xs (fun x hx => ?_)
        have hlt := sizeOf_lt_of_mem_json hx
        have : sizeOf x ≤ sizeOf x := le_refl _
        exact ih (sizeOf x) (by omega) x (le_refl _)
      | .obj fs =>
        refine hobj fs (fun kv hkv => ?_)
        have hlt := sizeOf_lt_of_mem_fields hkv
        exact ih (sizeOf kv.2) (by omega) kv.2 (le_refl _)
  exact fun v => main (sizeOf v) v (le_refl _)

mutual

/-- Boolean equality on JSON values. -/
def beqJ : Json → Json → Bool
  | .null, .null => true
  | .bool a, .bool b => a == b
  | .num a, .num b => a == b
  | .str a, .str b => a == b
  | .arr a, .arr b => beqL a b
  | .obj a, .obj b => beqF a b
  | _, _ => false

/-- Boolean equality on JSON value lists. -/
def beqL : List Json → List Json → Bool
  | [], [] => true
  | x :: xs, y :: ys => beqJ x y && beqL xs ys
  | _, _ => false

/-- Boolean equality on JSON field lists. -/
def beqF : List (Str × Json) → List (Str × Json) → Bool
  | [], [] => true
  | (k, v) :: fs, (k2, v2) :: gs => k == k2 && beqJ v v2 && beqF fs gs
  | _, _ => false

end

theorem beqL_iff_of (xs : List Json)
    (hx : ∀ x ∈ xs, ∀ b, beqJ x b = true ↔ x = b) :
    ∀ ys, beqL xs ys = true ↔ xs = ys := by
  induction xs with
  | nil => intro ys; cases ys <;> simp [beqL]
  | cons x xs ih =>
    intro ys
    cases ys with
    | nil => simp [beqL]
    | cons y ys =>
      have h1 := hx x (by simp) y
      have h2 := ih (fun a ha b => hx a (by simp [ha]) b) ys
      simp [beqL, h1, h2]

theorem beqF_iff_of (fs : List (Str × Json))
    (hf : ∀ kv ∈ fs, ∀ b, beqJ kv.2 b = true ↔ kv.2 = b) :
    ∀ gs, beqF fs gs = true ↔ fs = gs := by
  induction fs with
  | nil => intro gs; cases gs <;> simp [beqF]
  | cons kv fs ih =>
    intro gs
    cases gs with
    | nil => obtain ⟨k, v⟩ := kv; simp [beqF]
    | cons kv2 gs =>
      obtain ⟨k, v⟩ := kv
      obtain ⟨k2, v2⟩ := kv2
      have h1 := hf (k, v) (by simp) v2
      have h2 := ih (fun a ha b => hf a (by simp [ha]) b) gs
      simp [beqF, h1, h2, Prod.ext_iff]

theorem beqJ_iff : ∀ a b : Json, beqJ a b = true ↔ a = b := by
  intro a
  induction a using Json.indOn with
  | hnull => intro b; cases b <;> simp [beqJ]
  | hbool x => intro b; cases b <;> simp [beqJ]
  | hnum x => intro b; cases b <;> simp [beqJ]
  | hstr x => intro b; cases b <;> simp [beqJ]
  | harr xs ih =>
    intro b
    cases b <;> simp [beqJ]
    exact beqL_iff_of xs ih _
  | hobj fs ih =>
    intro b
    cases b <;> simp [beqJ]
    exact beqF_iff_of fs ih _

instance : DecidableEq Json := fun a b =>
  decidable_of_iff (beqJ a b = true) (beqJ_iff a b)

/-- Decimal digit character. -/
def digitChar : Nat → Char
  | 0 => '0' | 1 => '1' | 2 => '2' | 3 => '3' | 4 => '4'
  | 5 => '5' | 6 => '6' | 7 => '7' | 8 => '8' | 9 => '9'
  | _ => '0'

/-- Lowercase hexadecimal digit character (as emitted by JS `\u00xx`
escapes in `JSON.stringify`). -/
def hexDigit : Nat → Char
  | 0 => '0' | 1 => '1' | 2 => '2' | 3 => '3' | 4 => '4'
  | 5 => '5' | 6 => '6' | 7 => '7' | 8 => '8' | 9 => '9'
  | 10 => 'a' | 11 => 'b' | 12 => 'c' | 13 => 'd' | 14 => 'e' | 15 => 'f'
  | _ => '0'

/-- Little-endian decimal digits of `n` (with fuel). -/
def natDigitsAux : Nat → Nat → Str
  | 0, _ => []
  | fuel + 1, n => if n = 0 then [] else digitChar (n % 10) :: natDigitsAux fuel (n / 10)

/-- Decimal representation of a natural number, as JS number-to-string
coercion produces it. -/
def natDigits (n : Nat) : Str := if n = 0 then ['0'] else (natDigitsAux (n + 1) n).reverse

/-- Decimal representation of an integer (model of JS template-literal
and `JSON.stringify` rendering of an integral number). -/
def intRepr : Int → Str
  | .ofNat n => natDigits n
  | .negSucc m => '-' :: natDigits (m + 1)

/-- Escaping of one character inside a JSON string literal, exactly as
`JSON.stringify` performs it. -/
def escapeChar (c : Char) : Str :=
  if c = '"' then ['\\', '"']
  else if c = '\\' then ['\\', '\\']
  else if c = '\n' then ['\\', 'n']
  else if c = '\t' then ['\\', 't']
  else if c = '\r' then ['\\', 'r']
  else if c = '\u0008' then ['\\', 'b']
  else if c = '\u000C' then ['\\', 'f']
  else if c.toNat < 32 then
    ['\\', 'u', '0', '0', hexDigit (c.toNat / 16), hexDigit (c.toNat % 16)]
  else [c]

/-- Escaping of a JSON string body. -/
def escape (s : Str) : Str := s.flatMap escapeChar

mutual

/-- Model of `JSON.stringify` (no indentation argument, as the app never
passes one): minimal separators, standard string escaping. -/
def stringify : Json → Str
  | .null => "null".data
  | .bool true => "true".data
  | .bool false => "false".data
  | .num n => intRepr n
  | .str s => '"' :: escape s ++ ['"']
  | .arr xs => '[' :: stringifyElems xs ++ [']']
  | .obj fs => '{' :: stringifyFields fs ++ ['}']

/-- Comma-separated renderings of array elements. -/
def stringifyElems : List Json → Str
  | [] => []
  | [x] => stringify x
  | x :: y :: xs => stringify x ++ ',' :: stringifyElems (y :: xs)

/-- Comma-separated renderings of object fields. -/
def stringifyFields : List (Str × Json) → Str
  | [] => []
  | [(k, v)] => '"' :: escape k ++ '"' :: ':' :: stringify v
  | (k, v) :: f :: fs =>
    ('"' :: escape k ++ '"' :: ':' :: stringify v) ++ ',' :: stringifyFields (f :: fs)

end

/-- JSON insignificant whitespace predicate. -/
def isWs (c : Char) : Bool := c = ' ' || c = '\t' || c = '\n' || c = '\r'

/-- Skip insignificant whitespace. -/
def skipWs (s : Str) : Str := s.dropWhile isWs

/-- Value of a decimal digit string read left to right. -/
def digitsToNat (ds : Str) : Nat := ds.foldl (fun a c => a * 10 + (c.toNat - 48)) 0

/-- Parse a JSON integer literal: a maximal run of digits with the
leading-zero restriction of the JSON grammar. -/
def parseNat (s : Str) : Option (Nat × Str) :=
  let ds := s.takeWhile Char.isDigit
  let rest := s.dropWhile Char.isDigit
  if ds = [] then none
  else if 1 < ds.length ∧ ds.head? = some '0' then none
  else some (digitsToNat ds, rest)

/-- Parse one hexadecimal digit. -/
def parseHexDigit (c : Char) : Option Nat :=
  if c = '0' then some 0 else if c = '1' then some 1
  else if c = '2' then some 2 else if c = '3' then some 3
  else if c = '4' then some 4 else if c = '5' then some 5
  else if c = '6' then some 6 else if c = '7' then some 7
  else if c = '8' then some 8 else if c = '9' then some 9
  else if c = 'a' ∨ c = 'A' then some 10 else if c = 'b' ∨ c = 'B' then some 11
  else if c = 'c' ∨ c = 'C' then some 12 else if c = 'd' ∨ c = 'D' then some 13
  else if c = 'e' ∨ c = 'E' then some 14 else if c = 'f' ∨ c = 'F' then some 15
  else none

/-- Parse the body of a JSON string literal after the opening quote, up to
and including the closing quote; raw control characters are rejected and
the standard escapes are decoded, as in `JSON.parse`.  The fuel only needs
to exceed the number of source characters, since every step consumes at
least one input character. -/
def parseStrBodyF : Nat → Str → Option (Str × Str)
  | 0, _ => none
  | _ + 1, [] => none
  | fuel + 1, c :: rest =>
    if c = '"' then some ([], rest)
    else if c = '\\' then
      match rest with
      | [] => none
      | e :: rest2 =>
        if e = '"' then (parseStrBodyF fuel rest2).map (fun p => ('"' :: p.1, p.2))
        else if e = '\\' then (parseStrBodyF fuel rest2).map (fun p => ('\\' :: p.1, p.2))
        else if e = '/' then (parseStrBodyF fuel rest2).map (fun p => ('/' :: p.1, p.2))
        else if e = 'b' then (parseStrBodyF fuel rest2).map (fun p => ('\u0008' :: p.1, p.2))
        else if e = 'f' then (parseStrBodyF fuel rest2).map (fun p => ('\u000C' :: p.1, p.2))
        else if e = 'n' then (parseStrBodyF fuel rest2).map (fun p => ('\n' :: p.1, p.2))
        else if e = 'r' then (parseStrBodyF fuel rest2).map (fun p => ('\r' :: p.1, p.2))
        else if e = 't' then (parseStrBodyF fuel rest2).map (fun p => ('\t' :: p.1, p.2))
        else if e = 'u' then
          match rest2 with
          | a :: b :: c2 :: d :: rest3 =>
            match parseHexDigit a, parseHexDigit b, parseHexDigit c2, parseHexDigit d with
            | some x1, some x2, some x3, some x4 =>
              (parseStrBodyF fuel rest3).map
                (fun p => (Char.ofNat (4096 * x1 + 256 * x2 + 16 * x3 + x4) :: p.1, p.2))
            | _, _, _, _ => none
          | _ => none
        else none
    else if c.toNat < 32 then none
    else (parseStrBodyF fuel rest).map (fun p => (c :: p.1, p.2))

/-- String-literal body parser with its sufficient fuel. -/
def parseStrBody (s : Str) : Option (Str × Str) := parseStrBodyF (s.length + 1) s

/-- Consume the literal `pat`, yielding `v`. -/
def expectLit (pat : Str) (r : Str) (v : Json) : Option (Json × Str) :=
  if pat.isPrefixOf r then some (v, r.drop pat.length) else none

mutual

/-- Recursive-descent JSON value parser (model of `JSON.parse`, numbers
restricted to integer literals).  `fuel` bounds the nesting depth; it is
instantiated with the input length, which always suffices because each
nesting level consumes at least one character. -/
def parseVal : Nat → Str → Option (Json × Str)
  | 0, _ => none
  | fuel + 1, s =>
    match skipWs s with
    | [] => none
    | c :: r =>
      if c = 'n' then expectLit ['u', 'l', 'l'] r .null
      else if c = 't' then expectLit ['r', 'u', 'e'] r (.bool true)
      else if c = 'f' then expectLit ['a', 'l', 's', 'e'] r (.bool false)
      else if c = '"' then (parseStrBody r).map (fun p => (Json.str p.1, p.2))
      else if c = '-' then (parseNat r).map (fun p => (Json.num (-(p.1 : Int)), p.2))
      else if c.isDigit then (parseNat (c :: r)).map (fun p => (Json.num (p.1 : Int), p.2))
      else if c = '[' then
        match skipWs r with
        | ']' :: r2 => some (.arr [], r2)
        | r2 => parseElems fuel r2 []
      else if c = '{' then
        match skipWs r with
        | '}' :: r2 => some (.obj [], r2)
        | r2 => parseFields fuel r2 []
      else none

/-- Parse the elements of a non-empty JSON array after the opening
bracket. -/
def parseElems : Nat → Str → List Json → Option (Json × Str)
  | 0, _, _ => none
  | fuel + 1, s, acc =>
    match parseVal fuel s with
    | none => none
    | some (v, r) =>
      match skipWs r with
      | ',' :: r2 => parseElems fuel r2 (acc ++ [v])
      | ']' :: r2 => some (.arr (acc ++ [v]), r2)
      | _ => none

/-- Parse the fields of a non-empty JSON object after the opening
brace. -/
def parseFields : Nat → Str → List (Str × Json) → Option (Json × Str)
  | 0, _, _ => none
  | fuel + 1, s, acc =>
    match skipWs s with
    | '"' :: r =>
      match parseStrBody r with
      | none => none
      | some (k, r2) =>
        match skipWs r2 with
        | ':' :: r3 =>
          match parseVal fuel r3 with
          | none => none
          | some (v, r4) =>
            match skipWs r4 with
            | ',' :: r5 => parseFields fuel r5 (acc ++ [(k, v)])
            | '}' :: r5 => some (.obj (acc ++ [(k, v)]), r5)
            | _ => none
        | _ => none
    | _ => none

end

/-- Model of `JSON.parse` on a whole string: one value surrounded by
optional whitespace; any leftover input is a syntax error, reported as
`none` (the app always calls it under `try`/`catch`). -/
def jsonParse (s : Str) : Option Json :=
  match parseVal (s.length + 1) s with
  | some (v, rest) => if skipWs rest = [] then some v else none
  | none => none

/-- Opening delimiter of a fenced JSON code block, as matched by the
regex in `parseJsonOutput`. -/
def fenceOpen : Str := "```json\n".data

/-- Closing delimiter of a fenced JSON code block. -/
def fenceClose : Str := "\n```".data

/-- Model of the regex search in `parseJsonOutput`
(`src/App.tsx`, `text.match` with pattern fenced-json-block): the captured
interior of the leftmost fenced block whose closing delimiter follows it.
With a lazy interior, the regex match starts at the first occurrence of
the opener that is followed by a closer, which is the first occurrence of
the opener overall whenever any closer follows it. -/
def fencedMatch (t : Str) : Option Str :=
  match firstMatch fenceOpen t with
  | none => none
  | some i =>
    match firstMatch fenceClose (t.drop (i + 8)) with
    | none => none
    | some j => some ((t.drop (i + 8)).take j)

/-- Model of `parseJsonOutput` from `src/App.tsx` (identical in
`src/unnamed/part_002`): parse the interior of the first fenced `json`
code block if one exists, otherwise parse the entire text; any parse
failure yields `null`. -/
def parseJsonOutput (t : Str) : Option Json :=
  match fencedMatch t with
  | some s => jsonParse s
  | none => jsonParse t

/-- Greatest index at which character `c` occurs in a list (model of the
endpoint of a greedy `[\s\S]*` regex span). -/
def lastIdx (c : Char) : Str → Option Nat
  | [] => none
  | x :: xs =>
    match lastIdx c xs with
    | some r => some (r + 1)
    | none => if x = c then some 0 else none

/-- Model of one attempt of the `part_001` extractor regex at a given
position (the suffix `s` of the text): alternative 1 is the fenced block
with lazy interior, alternative 2 a greedy first-brace-to-last-brace
span, alternative 3 a greedy first-bracket-to-last-bracket span; the
captured string of the first alternative that matches is returned. -/
def altMatch (s : Str) : Option Str :=
  match (if fenceOpen.isPrefixOf s then firstMatch fenceClose (s.drop 8) else none) with
  | some j => some ((s.drop 8).take j)
  | none =>
    match s with
    | '{' :: rest => (lastIdx '}' rest).map (fun r => '{' :: rest.take (r + 1))
    | '[' :: rest => (lastIdx ']' rest).map (fun r => '[' :: rest.take (r + 1))
    | _ => none

/-- Leftmost-position match of the `part_001` extractor regex: try
`altMatch` at position 0, 1, 2, ... and return the first capture. -/
def firstAlt : Str → Option Str
  | [] => none
  | c :: rest =>
    match altMatch (c :: rest) with
    | some g => some g
    | none => firstAlt rest

/-- Model of `parseJsonOutput` from `src/unnamed/part_001`: the regex
tries, at each successive position, a fenced `json` block, then a greedy
`{...}` span, then a greedy `[...]` span; the capture of the earliest
match is parsed, otherwise the whole text is parsed; any parse failure
yields `null`.  (When the fenced alternative matches with an empty
interior, the JS code folds the empty capture to `undefined` and
`JSON.parse` then fails; this coincides with `jsonParse [] = none`.) -/
def parseJsonOutputV1 (t : Str) : Option Json :=
  match firstAlt t with
  | some g => jsonParse g
  | none => jsonParse t

/-- Per-agent run states (`AgentStatus` in `src/unnamed/part_003`). -/
inductive AgentStatus where
  | pending | running | success | error
deriving DecidableEq

/-- An agent (`Agent` in `src/unnamed/part_003`, with the `model` field
used by the unified `src/App.tsx` version; the single-provider variant
simply ignores it). -/
structure Agent where
  id : Str
  name : Str
  prompt : Str
  model : Str
  status : AgentStatus
  output : Option Str
  error : Option Str
  outputJson : Option Json
deriving DecidableEq

/-- Document kinds (`DocumentType` in `src/unnamed/part_003`). -/
inductive DocumentType where
  | pdf | txt | empty
deriving DecidableEq

/-- The loaded document (`DocumentFile` in `src/unnamed/part_003`);
only the `content` and `type` fields are consulted by the workflow, the
display-only `id`/`name`/`file` fields are omitted. -/
structure Document where
  content : Str
  type : DocumentType
deriving DecidableEq

/-- API-key state of `src/App.tsx`: environment-provided keys (fixed at
startup) and user-supplied keys persisted in local storage. -/
structure Keys where
  envGemini : Str
  userGemini : Str
  envOpenai : Str
  userOpenai : Str
deriving DecidableEq

/-- Model of `effectiveGeminiApiKey = envGeminiApiKey || userGeminiApiKey`
(JS `||` on strings: the empty string is falsy). -/
def effectiveGemini (ks : Keys) : Str :=
  if ks.envGemini.isEmpty then ks.userGemini else ks.envGemini

/-- Model of `effectiveOpenAIApiKey = envOpenAIApiKey || userOpenAIApiKey`. -/
def effectiveOpenai (ks : Keys) : Str :=
  if ks.envOpenai.isEmpty then ks.userOpenai else ks.envOpenai

/-- Model of `isGeminiKeySet = !!effectiveGeminiApiKey`. -/
def isGeminiKeySet (ks : Keys) : Bool := !(effectiveGemini ks).isEmpty

/-- Model of `isOpenAIKeySet = !!effectiveOpenAIApiKey`. -/
def isOpenAIKeySet (ks : Keys) : Bool := !(effectiveOpenai ks).isEmpty

/-- A raw provider-side failure, as observed by the `catch` blocks of the
gateway: an error message plus an optional HTTP status (the OpenAI branch
inspects `error.status === 401`). -/
structure RawErr where
  message : Str
  status : Option Nat
deriving DecidableEq

/-- Prompt construction of `unifiedProcessAgentPrompt` / `processAgentPrompt`:
the document content and the agent's own prompt, nothing else. -/
def fullPrompt (prompt doc : Str) : Str :=
  ("DOCUMENT CONTENT:\n---\n".data) ++ doc ++ ("\n---\n\nTASK:\n".data) ++ prompt

/-- Provider segment of a model identifier: `agent.model.split('/')[0]`. -/
def providerOf (m : Str) : Str := m.takeWhile (fun c => c ≠ '/')

def geminiNotConfiguredMsg : Str := "Gemini API key is not configured.".data
def geminiInvalidMsg : Str := "The provided Gemini API key is not valid. Please check it.".data
def geminiFailedMsg : Str := "Failed to get response from Gemini API.".data
def openaiNotConfiguredMsg : Str := "OpenAI API key is not configured.".data
def openaiInvalidMsg : Str := "The provided OpenAI API key is not valid. Please check it.".data
def openaiFailedMsg : Str := "Failed to get response from OpenAI API.".data
def unsupportedMsg (p : Str) : Str := ("Unsupported provider: ".data) ++ p
def geminiRequiredMsg : Str := "A Gemini API key is required for this workflow.".data
def openaiRequiredMsg : Str := "An OpenAI API key is required for this workflow.".data
def apiKeyLit : Str := "API key".data

/-- Model of `unifiedProcessAgentPrompt` (`src/App.tsx`): dispatch on the
provider segment of the agent's model id; the external network round trip
is abstracted as `net`, which receives exactly the constructed full
prompt.  Returns the outcome as seen by the caller's `catch`, plus a flag
recording whether a provider round trip was actually dispatched. -/
def processAgent (gOk oOk : Bool) (net : Str → Except RawErr Str) (a : Agent) (doc : Str) :
    Except Str Str × Bool :=
  let prov := providerOf a.model
  if prov = ("gemini".data) then
    if gOk = false then (.error geminiNotConfiguredMsg, false)
    else
      match net (fullPrompt a.prompt doc) with
      | .ok t => (.ok t, true)
      | .error e =>
        (.error (if containsStr e.message ("API key not valid".data)
                    || containsStr e.message ("403".data)
                 then geminiInvalidMsg else geminiFailedMsg), true)
  else if prov = ("openai".data) then
    if oOk = false then (.error openaiNotConfiguredMsg, false)
    else
      match net (fullPrompt a.prompt doc) with
      | .ok t => (.ok t, true)
      | .error e =>
        (.error (if e.status = some 401 then openaiInvalidMsg else openaiFailedMsg), true)
  else (.error (unsupportedMsg prov), false)

/-- The per-iteration registry update of the run loop:
`currentAgents.map(a => a.id === agent.id ? f(a) : a)`. -/
def updateById (l : List Agent) (i : Str) (f : Agent → Agent) : List Agent :=
  l.map (fun b => if b.id = i then f b else b)

/-- The reset applied to every agent at the start of a run. -/
def resetAgent (a : Agent) : Agent :=
  { a with status := .pending, output := none, error := none, outputJson := none }

/-- Credential invalidation in the run loop's `catch` handler: the
user-supplied key of each provider whose name occurs in the lowercased
error message is cleared; environment keys are component state that the
handler never writes. -/
def invalidateKeys (msg : Str) (ks : Keys) : Keys :=
  { ks with
    userGemini := if containsStr (toLowerStr msg) ("gemini".data) then [] else ks.userGemini
    userOpenai := if containsStr (toLowerStr msg) ("openai".data) then [] else ks.userOpenai }

/-- Observable outcome of a workflow run in `src/App.tsx`: the final
agent list, the key state, the trace of dispatched provider calls
(agent index and prompt text), the `apiKeyError` message if one was set,
and whether the key modal was opened. -/
structure RunResult where
  agents : List Agent
  keys : Keys
  trace : List (Nat × Str)
  apiKeyError : Option Str
  modalOpened : Bool
deriving DecidableEq

/-- The `for (const agent of agents)` loop of `runWorkflow`
(`src/App.tsx`): iterate over the pre-run agent snapshot, set the agent
Running by id, call the gateway, record Success with parsed output or
record Error and stop. -/
def runLoop (gOk oOk : Bool) (net : Nat → Str → Except RawErr Str) (doc : Str) :
    List Agent → Nat → List Agent → Keys → List (Nat × Str) → RunResult
  | [], _, cur, ks, tr => ⟨cur, ks, tr, none, false⟩
  | a :: rest, i, cur, ks, tr =>
    let cur1 := updateById cur a.id (fun b => { b with status := .running })
    let pr := processAgent gOk oOk (net i) a doc
    let tr1 := if pr.2 then tr ++ [(i, fullPrompt a.prompt doc)] else tr
    match pr.1 with
    | .ok out =>
      let cur2 := updateById cur1 a.id
        (fun b => { b with status := .success, output := some out,
                           outputJson := parseJsonOutput out })
      runLoop gOk oOk net doc rest (i + 1) cur2 ks tr1
    | .error msg =>
      let hasKey := containsStr msg apiKeyLit
      let ks1 := if hasKey then invalidateKeys msg ks else ks
      let cur2 := updateById cur1 a.id (fun b => { b with status := .error, error := some msg })
      ⟨cur2, ks1, tr1, if hasKey then some msg else none, hasKey⟩

/-- Model of `runWorkflow` from `src/App.tsx`: check the required
providers' credentials up front (Gemini first, each refusal returning
immediately), then reset every agent and run the loop.  The document
content is used as prompt context; no document-type or emptiness check is
performed by this version. -/
def runWorkflow (net : Nat → Str → Except RawErr Str) (ks : Keys) (doc : Document)
    (agents : List Agent) : RunResult :=
  let provs := agents.map (fun a => providerOf a.model)
  if provs.contains ("gemini".data) && !(isGeminiKeySet ks) then
    ⟨agents, ks, [], some geminiRequiredMsg, true⟩
  else if provs.contains ("openai".data) && !(isOpenAIKeySet ks) then
    ⟨agents, ks, [], some openaiRequiredMsg, true⟩
  else
    runLoop (isGeminiKeySet ks) (isOpenAIKeySet ks) net doc.content
      agents 0 (agents.map resetAgent) ks []

/-- Template passed to `addAgent` (name and prompt from
`DEFAULT_AGENTS`; the `src/App.tsx` template omits the model). -/
structure AgentTemplate where
  name : Str
  prompt : Str
deriving DecidableEq

/-- `MODEL_OPTIONS[0].value`, the default model of a new agent. -/
def defaultModel : Str := "gemini/gemini-2.5-flash".data

/-- The agent object built by `addAgent` (`src/App.tsx`): id is the
template literal `agent-${Date.now()}` (the clock reading is the explicit
`now` argument), status `Pending`, output fields null, model defaulted to
`MODEL_OPTIONS[0].value`. -/
def newAgent (t : AgentTemplate) (now : Nat) : Agent :=
  { id := ("agent-".data) ++ natDigits now, name := t.name, prompt := t.prompt,
    model := defaultModel, status := .pending,
    output := none, error := none, outputJson := none }

/-- Model of `addAgent` (`src/App.tsx`): append the new agent. -/
def addAgent (t : AgentTemplate) (now : Nat) (agents : List Agent) : List Agent :=
  agents ++ [newAgent t now]

/-- JavaScript truthiness of a parsed JSON value. -/
def jsTruthy : Json → Bool
  | .null => false
  | .bool b => b
  | .num n => n != 0
  | .str s => !s.isEmpty
  | .arr _ => true
  | .obj _ => true

/-- Property access on a parsed JSON value (`j.sentiment`, `e.name`, ...):
only objects expose fields; with duplicate keys the later binding wins,
as in the object produced by `JSON.parse`. -/
def lookupLast : List (Str × Json) → Str → Option Json
  | [], _ => none
  | (k2, v) :: rest, k =>
    match lookupLast rest k with
    | some r => some r
    | none => if k2 = k then some v else none

/-- Field access `j.k` on a JSON value; `none` models JS `undefined`. -/
def getField (j : Json) (k : Str) : Option Json :=
  match j with
  | .obj fs => lookupLast fs k
  | _ => none

/-- Truthiness of a possibly-`undefined` field access. -/
def fieldTruthy (v : Option Json) : Bool :=
  match v with
  | some j => jsTruthy j
  | none => false

/-- Sentiment histogram of `AnalysisResult` (`src/unnamed/part_003`). -/
structure SentimentCounts where
  positive : Nat
  negative : Nat
  neutral : Nat
deriving DecidableEq

/-- Aggregated analysis (`AnalysisResult` in `src/unnamed/part_003`);
entities are kept as the raw filtered JSON entries. -/
structure AnalysisResult where
  sentiment : Option SentimentCounts
  entities : Option (List Json)
deriving DecidableEq

def sentimentAgentName : Str := "Sentiment Analyzer".data
def entityAgentName : Str := "Entity Extractor".data

/-- Bucket selection of `analyzeResults` after lowercasing the label. -/
def bucketOf (ls : Str) : SentimentCounts :=
  if ls = ("positive".data) then ⟨1, 0, 0⟩
  else if ls = ("negative".data) then ⟨0, 1, 0⟩
  else ⟨0, 0, 1⟩

/-- Model of `analyzeResults` (`src/unnamed/part_001` and
`src/unnamed/part_002`, identical): find the first Success agent in the
sentiment role and the first in the entity role, derive the sentiment
bucket from the truthy `outputJson.sentiment` label and the entity list
from an array-valued `outputJson`, and report whether a result was set
and the view switched.  A truthy non-string sentiment value makes the JS
code call `.toLowerCase()` on a non-string, raising a `TypeError`,
modelled as `Except.error ()`. -/
def analyzeResults (agents : List Agent) : Except Unit (AnalysisResult × Bool) :=
  let sAgent := agents.find? fun a =>
    a.name == sentimentAgentName && a.status == AgentStatus.success
  let eAgent := agents.find? fun a =>
    a.name == entityAgentName && a.status == AgentStatus.success
  let sentimentE : Except Unit (Option SentimentCounts) :=
    match sAgent.bind (fun a => a.outputJson.bind (fun j => getField j ("sentiment".data))) with
    | some v =>
      if jsTruthy v then
        match v with
        | .str s => .ok (some (bucketOf (toLowerStr s)))
        | _ => .error ()
      else .ok none
    | none => .ok none
  match sentimentE with
  | .error e => .error e
  | .ok sentiment =>
    let entities : Option (List Json) :=
      match eAgent.bind (fun a => a.outputJson) with
      | some j =>
        if jsTruthy j then
          match j with
          | .arr es =>
            some (es.filter fun e =>
              fieldTruthy (getField e ("name".data)) && fieldTruthy (getField e ("type".data)))
          | _ => none
        else none
      | none => none
    let flag := sentiment.isSome
      || (match entities with | some l => !l.isEmpty | none => false)
    .ok (⟨sentiment, entities⟩, flag)

def v1NotConfiguredMsg : Str := "Gemini API key is not configured. Please set it first.".data
def v1InvalidMsg : Str := "The provided API key is not valid. Please check it and try again.".data
def v1SetKeyMsg : Str := "Please set your API key before running the workflow.".data
def v1LoadDocMsg : Str := "Please load a document first.".data

/-- Model of `processAgentPrompt` from `src/unnamed/part_001`
(single-provider Gemini service): same prompt construction, Gemini-only
error mapping. -/
def processAgentPromptV1 (aiSet : Bool) (net : Str → Except RawErr Str) (prompt doc : Str) :
    Except Str Str × Bool :=
  if aiSet = false then (.error v1NotConfiguredMsg, false)
  else
    match net (fullPrompt prompt doc) with
    | .ok t => (.ok t, true)
    | .error e =>
      (.error (if containsStr e.message ("API key not valid".data)
               then v1InvalidMsg else geminiFailedMsg), true)

instance {ε α : Type} [DecidableEq ε] [DecidableEq α] : DecidableEq (Except ε α) := fun x y =>
  match x, y with
  | .ok a, .ok b => decidable_of_iff (a = b) (by simp)
  | .error a, .error b => decidable_of_iff (a = b) (by simp)
  | .ok _, .error _ => isFalse (by simp)
  | .error _, .ok _ => isFalse (by simp)

/-- Observable outcome of a run of the `src/unnamed/part_001` workflow.
`analysis` is `none` when the run refused before the loop; otherwise it
carries the outcome of the final `analyzeResults` call. -/
structure RunResultV1 where
  agents : List Agent
  trace : List (Nat × Str)
  alerted : Option Str
  apiKeyError : Option Str
  userKeyCleared : Bool
  analysis : Option (Except Unit (AnalysisResult × Bool))
deriving DecidableEq

/-- The run loop of `runWorkflow` in `src/unnamed/part_001`: identical
shape to the unified loop, single provider, `parseJsonOutputV1` as
extractor, user key cleared on error messages mentioning the API key. -/
def runLoopV1 (aiSet : Bool) (net : Nat → Str → Except RawErr Str) (doc : Str) :
    List Agent → Nat → List Agent → List (Nat × Str) →
    (List Agent × List (Nat × Str) × Option Str × Bool)
  | [], _, cur, tr => (cur, tr, none, false)
  | a :: rest, i, cur, tr =>
    let cur1 := updateById cur a.id (fun b => { b with status := .running })
    let pr := processAgentPromptV1 aiSet (net i) a.prompt doc
    let tr1 := if pr.2 then tr ++ [(i, fullPrompt a.prompt doc)] else tr
    match pr.1 with
    | .ok out =>
      let cur2 := updateById cur1 a.id
        (fun b => { b with status := .success, output := some out,
                           outputJson := parseJsonOutputV1 out })
      runLoopV1 aiSet net doc rest (i + 1) cur2 tr1
    | .error msg =>
      let hasKey := containsStr msg apiKeyLit
      let cur2 := updateById cur1 a.id (fun b => { b with status := .error, error := some msg })
      (cur2, tr1, if hasKey then some msg else none, hasKey)

/-- Model of `runWorkflow` from `src/unnamed/part_001`: refuse without a
key, refuse (via `alert`) when the document has no content or is of the
EMPTY type, otherwise reset the agents, run the loop and aggregate. -/
def runWorkflowV1 (net : Nat → Str → Except RawErr Str) (aiSet : Bool) (doc : Document)
    (agents : List Agent) : RunResultV1 :=
  if aiSet = false then ⟨agents, [], none, some v1SetKeyMsg, false, none⟩
  else if doc.content.isEmpty || doc.type == DocumentType.empty then
    ⟨agents, [], some v1LoadDocMsg, none, false, none⟩
  else
    let r := runLoopV1 aiSet net doc.content agents 0 (agents.map resetAgent) []
    ⟨r.1, r.2.1, none, r.2.2.1, r.2.2.2, some (analyzeResults r.1)⟩

/-! ### Characterization of the leftmost-match search -/

theorem firstMatch_some_occ {pat s : Str} {i : Nat} (h : firstMatch pat s = some i) :
    pat <+: s.drop i := by
  induction s generalizing i with
  | nil =>
    unfold firstMatch at h
    by_cases hp : pat = ([] : Str)
    · simp [hp] at h
      subst hp
      simp [← h]
    · simp [hp] at h
  | cons c rest ih =>
    unfold firstMatch at h
    by_cases hp : pat <+: (c :: rest)
    · simp [List.isPrefixOf_iff_prefix, hp] at h
      subst h
      simpa using hp
    · simp [List.isPrefixOf_iff_prefix, hp] at h
      obtain ⟨j, hj, hji⟩ := h
      subst hji
      simpa using ih hj

theorem firstMatch_some_least {pat s : Str} {i : Nat} (h : firstMatch pat s = some i) :
    ∀ j < i, ¬ pat <+: s.drop j := by
  induction s generalizing i with
  | nil =>
    unfold firstMatch at h
    by_cases hp : pat = ([] : Str) <;> simp [hp] at h
    subst h
    omega
  | cons c rest ih =>
    unfold firstMatch at h
    by_cases hp : pat <+: (c :: rest)
    · simp [List.isPrefixOf_iff_prefix, hp] at h
      subst h
      omega
    · simp [List.isPrefixOf_iff_prefix, hp] at h
      obtain ⟨k, hk, hki⟩ := h
      subst hki
      intro j hj
      match j with
      | 0 => simpa using hp
      | j + 1 =>
        have := ih hk j (by omega)
        simpa using this

theorem firstMatch_eq_some_of {pat s : Str} {i : Nat}
    (hp : pat <+: s.drop i)
    (hmin : ∀ j < i, ¬ pat <+: s.drop j) :
    firstMatch pat s = some i := by
  induction s generalizing i with
  | nil =>
    have hpe : pat = ([] : Str) := by
      simpa using hp
    have hi : i = 0 := by
      by_contra hne
      exact hmin 0 (by omega) (by simp [hpe])
    subst hi hpe
    simp [firstMatch]
  | cons c rest ih =>
    match i with
    | 0 =>
      simp at hp
      simp [firstMatch, List.isPrefixOf_iff_prefix, hp]
    | i + 1 =>
      have h0 := hmin 0 (by omega)
      simp at h0
      have := ih (by simpa using hp) (fun j hj => by simpa using hmin (j + 1) (by omega))
      simp [firstMatch, List.isPrefixOf_iff_prefix, h0, this]

theorem firstMatch_eq_none_of {pat s : Str}
    (h : ∀ i, ¬ pat <+: s.drop i) :
    firstMatch pat s = none := by
  match hm : firstMatch pat s with
  | none => rfl
  | some i => exact absurd (firstMatch_some_occ hm) (h i)

theorem firstMatch_none_occ {pat s : Str} (h : firstMatch pat s = none) :
    ∀ i, ¬ pat <+: s.drop i := by
  induction s with
  | nil =>
    intro i hp
    have hpe : pat = ([] : Str) := by simpa using hp
    simp [firstMatch, hpe] at h
  | cons c rest ih =>
    unfold firstMatch at h
    by_cases hb : pat <+: (c :: rest)
    · simp [List.isPrefixOf_iff_prefix, hb] at h
    · simp [List.isPrefixOf_iff_prefix, hb] at h
      intro i
      match i with
      | 0 => simpa using hb
      | i + 1 => simpa using ih h i

theorem containsStr_iff {s pat : Str} :
    containsStr s pat = true ↔ ∃ i, pat <+: s.drop i := by
  constructor
  · intro h
    unfold containsStr at h
    match hm : firstMatch pat s with
    | some i => exact ⟨i, firstMatch_some_occ hm⟩
    | none => simp [hm] at h
  · rintro ⟨i, hi⟩
    unfold containsStr
    match hm : firstMatch pat s with
    | some j => simp
    | none => exact absurd hi (firstMatch_none_occ hm i)

/-! ### Decimal digit printing and its inverse -/

theorem digitChar_isDigit {d : Nat} (h : d < 10) : (digitChar d).isDigit = true := by
  interval_cases d <;> decide

theorem digitChar_toNat {d : Nat} (h : d < 10) : (digitChar d).toNat - 48 = d := by
  interval_cases d <;> decide

theorem digitChar_ne_zero {d : Nat} (h1 : 1 ≤ d) (h2 : d < 10) : digitChar d ≠ '0' := by
  interval_cases d <;> decide

theorem natDigitsAux_digits {fuel : Nat} :
    ∀ {n c}, c ∈ natDigitsAux fuel n → c.isDigit = true := by
  induction fuel with
  | zero => intro n c hc; simp [natDigitsAux] at hc
  | succ fuel ih =>
    intro n c hc
    unfold natDigitsAux at hc
    by_cases hn : n = 0
    · simp [hn] at hc
    · simp [hn] at hc
      rcases hc with hc | hc
      · exact hc ▸ digitChar_isDigit (Nat.mod_lt _ (by omega))
      · exact ih hc

theorem digitsToNat_append_singleton (xs : Str) (c : Char) :
    digitsToNat (xs ++ [c]) = 10 * digitsToNat xs + (c.toNat - 48) := by
  unfold digitsToNat
  rw [List.foldl_append]
  simp [Nat.mul_comm]

theorem natDigitsAux_val : ∀ n fuel, n < fuel →
    digitsToNat ((natDigitsAux fuel n).reverse) = n := by
  intro n
  induction n using Nat.strong_induction_on with
  | _ n ih =>
    intro fuel hf
    match fuel with
    | 0 => omega
    | fuel + 1 =>
      unfold natDigitsAux
      by_cases hn : n = 0
      · simp [hn, digitsToNat]
      · simp only [hn, if_false, List.reverse_cons]
        rw [digitsToNat_append_singleton]
        have hlt : n / 10 < n := Nat.div_lt_self (by omega) (by omega)
        rw [ih (n / 10) hlt fuel (by omega)]
        rw [digitChar_toNat (Nat.mod_lt _ (by omega))]
        omega

theorem digitsToNat_natDigits (n : Nat) : digitsToNat (natDigits n) = n := by
  unfold natDigits
  by_cases hn : n = 0
  · simp [hn]; decide
  · simp only [hn, if_false]
    exact natDigitsAux_val n (n + 1) (by omega)

theorem natDigits_inj : Function.Injective natDigits := by
  intro a b h
  have := congrArg digitsToNat h
  rwa [digitsToNat_natDigits, digitsToNat_natDigits] at this

theorem natDigits_digits {n : Nat} : ∀ c ∈ natDigits n, c.isDigit = true := by
  intro c hc
  unfold natDigits at hc
  by_cases hn : n = 0
  · simp [hn] at hc; simp [hc]
  · simp only [hn, if_false, List.mem_reverse] at hc
    exact natDigitsAux_digits hc

theorem natDigits_ne_nil {n : Nat} : natDigits n ≠ [] := by
  unfold natDigits
  by_cases hn : n = 0
  · simp [hn]
  · simp only [hn, if_false, ne_eq, List.reverse_eq_nil_iff]
    unfold natDigitsAux
    simp [hn]

theorem natDigitsAux_last : ∀ n, 0 < n → ∀ fuel, n < fuel →
    ∃ d ds, natDigitsAux fuel n = ds ++ [digitChar d] ∧ 1 ≤ d ∧ d < 10 := by
  intro n
  induction n using Nat.strong_induction_on with
  | _ n ih =>
    intro hn fuel hf
    match fuel with
    | 0 => omega
    | fuel + 1 =>
      unfold natDigitsAux
      simp only [Nat.pos_iff_ne_zero.mp hn, if_false]
      by_cases hq : n / 10 = 0
      · refine ⟨n % 10, [], ?_, ?_, Nat.mod_lt _ (by omega)⟩
        · have : natDigitsAux fuel (n / 10) = [] := by
            match fuel with
            | 0 => rfl
            | fuel + 1 => simp [natDigitsAux, hq]
          simp [this]
        · have hlt : n < 10 := by omega
          omega
      · have hlt : n / 10 < n := Nat.div_lt_self (by omega) (by omega)
        obtain ⟨d, ds, heq, hd1, hd2⟩ := ih (n / 10) hlt (by omega) fuel (by omega)
        exact ⟨d, digitChar (n % 10) :: ds, by simp [heq], hd1, hd2⟩

theorem natDigits_head {n : Nat} (hn : 0 < n) :
    ∃ d ds, natDigits n = digitChar d :: ds ∧ 1 ≤ d ∧ d < 10 := by
  unfold natDigits
  simp only [Nat.pos_iff_ne_zero.mp hn, if_false]
  obtain ⟨d, ds, heq, hd1, hd2⟩ := natDigitsAux_last n hn (n + 1) (by omega)
  exact ⟨d, ds.reverse, by simp [heq], hd1, hd2⟩

/-- The remainder of the input is safe to follow a printed number: it is
empty or starts with a non-digit. -/
def noDigitHead (r : Str) : Prop := ∀ c cs, r = c :: cs → c.isDigit = false

theorem takeWhile_append_of {p : Char → Bool} {a b : Str}
    (ha : ∀ c ∈ a, p c = true)
    (hb : ∀ c cs, b = c :: cs → p c = false) :
    (a ++ b).takeWhile p = a ∧ (a ++ b).dropWhile p = b := by
  induction a with
  | nil =>
    simp only [List.nil_append]
    match b with
    | [] => simp
    | c :: cs => simp [List.takeWhile, List.dropWhile, hb c cs rfl]
  | cons x a ih =>
    have hx := ha x (by simp)
    have := ih (fun c hc => ha c (by simp [hc]))
    simp [List.takeWhile, List.dropWhile, hx, this.1, this.2]

theorem parseNat_natDigits {n : Nat} {rest : Str} (hr : noDigitHead rest) :
    parseNat (natDigits n ++ rest) = some (n, rest) := by
  obtain ⟨htake, hdrop⟩ := takeWhile_append_of (p := Char.isDigit) (natDigits_digits (n := n)) hr
  have hne : natDigits n ≠ [] := natDigits_ne_nil
  have hnolead : ¬ (1 < (natDigits n).length ∧ (natDigits n).head? = some '0') := by
    by_cases hn : n = 0
    · subst hn
      intro ⟨hl, _⟩
      simp [natDigits] at hl
    · obtain ⟨d, ds, heq, hd1, hd2⟩ := natDigits_head (Nat.pos_of_ne_zero hn)
      intro ⟨_, hh⟩
      rw [heq] at hh
      simp at hh
      exact digitChar_ne_zero hd1 hd2 hh
  simp only [parseNat, htake, hdrop]
  rw [if_neg hne, if_neg hnolead, digitsToNat_natDigits]

/-! ### String escaping and its inverse -/

theorem parseHexDigit_hexDigit {d : Nat} (h : d < 16) :
    parseHexDigit (hexDigit d) = some d := by
  interval_cases d <;> decide

theorem escape_cons (c : Char) (s : Str) : escape (c :: s) = escapeChar c ++ escape s := by
  simp [escape]

theorem parseStrBodyF_escape : ∀ (s : Str) (fuel : Nat) (rest : Str), s.length < fuel →
    parseStrBodyF fuel (escape s ++ '"' :: rest) = some (s, rest) := by
  intro s
  induction s with
  | nil =>
    intro fuel rest hfu
    obtain ⟨f, rfl⟩ : ∃ f, fuel = f + 1 := ⟨fuel - 1, by omega⟩
    rw [show escape [] ++ '"' :: rest = '"' :: rest by simp [escape]]
    rw [parseStrBodyF.eq_def]
    simp
  | cons c cs ih =>
    intro fuel rest hfu
    obtain ⟨f, rfl⟩ : ∃ f, fuel = f + 1 := ⟨fuel - 1, by omega⟩
    have hlt : cs.length < f := by
      simp only [List.length_cons] at hfu
      omega
    have ihr := ih f rest hlt
    rw [escape_cons, List.append_assoc]
    unfold escapeChar
    by_cases h1 : c = '"'
    · subst h1; simp only [if_true, List.cons_append, List.nil_append]
      rw [parseStrBodyF.eq_def]; simp [ihr]
    by_cases h2 : c = '\\'
    · subst h2; simp only [h1, if_false, if_true, List.cons_append, List.nil_append]
      rw [parseStrBodyF.eq_def]; simp [ihr]
    by_cases h3 : c = '\n'
    · subst h3; simp only [h1, h2, if_false, if_true, List.cons_append, List.nil_append]
      rw [parseStrBodyF.eq_def]; simp [ihr]
    by_cases h4 : c = '\t'
    · subst h4; simp only [h1, h2, h3, if_false, if_true, List.cons_append, List.nil_append]
      rw [parseStrBodyF.eq_def]; simp [ihr]
    by_cases h5 : c = '\r'
    · subst h5
      simp only [h1, h2, h3, h4, if_false, if_true, List.cons_append, List.nil_append]
      rw [parseStrBodyF.eq_def]; simp [ihr]
    by_cases h6 : c = '\u0008'
    · subst h6
      simp only [h1, h2, h3, h4, h5, if_false, if_true, List.cons_append, List.nil_append]
      rw [parseStrBodyF.eq_def]; simp [ihr]
    by_cases h7 : c = '\u000C'
    · subst h7
      simp only [h1, h2, h3, h4, h5, h6, if_false, if_true, List.cons_append, List.nil_append]
      rw [parseStrBodyF.eq_def]; simp [ihr]
    by_cases h8 : c.toNat < 32
    · simp only [h1, h2, h3, h4, h5, h6, h7, if_false, h8, if_true, List.cons_append,
        List.nil_append]
      have e1 : parseHexDigit (hexDigit (c.toNat / 16)) = some (c.toNat / 16) :=
        parseHexDigit_hexDigit (by omega)
      have e2 : parseHexDigit (hexDigit (c.toNat % 16)) = some (c.toNat % 16) :=
        parseHexDigit_hexDigit (by omega)
      rw [parseStrBodyF.eq_def]
      simp [e1, e2, ihr, show parseHexDigit '0' = some 0 from rfl, Nat.div_add_mod,
        Char.ofNat_toNat]
    · simp only [h1, h2, h3, h4, h5, h6, h7, if_false, h8, if_true, List.cons_append,
        List.nil_append]
      rw [parseStrBodyF.eq_def]
      simp [h1, h2, h8, ihr]

theorem one_le_length_escapeChar (c : Char) : 1 ≤ (escapeChar c).length := by
  unfold escapeChar
  split_ifs <;> simp

theorem length_le_length_escape (s : Str) : s.length ≤ (escape s).length := by
  induction s with
  | nil => simp [escape]
  | cons c cs ih =>
    rw [escape_cons]
    simp only [List.length_append, List.length_cons]
    have := one_le_length_escapeChar c
    omega

theorem parseStrBody_escape : ∀ (s rest : Str),
    parseStrBody (escape s ++ '"' :: rest) = some (s, rest) := by
  intro s rest
  unfold parseStrBody
  apply parseStrBodyF_escape
  have := length_le_length_escape s
  simp only [List.length_append, List.length_cons]
  omega

/-! ### Shape facts about `stringify` -/

theorem isDigit_sep_props {c : Char} (h : c.isDigit = true) :
    isWs c = false ∧ c ≠ ']' ∧ c ≠ '}' := by
  refine ⟨?_, ?_, ?_⟩
  · cases hw : isWs c
    · rfl
    · exfalso
      unfold isWs at hw
      simp only [Bool.or_eq_true, decide_eq_true_eq] at hw
      rcases hw with ((h1 | h1) | h1) | h1 <;> subst h1 <;> simp at h
  · intro h1; subst h1; simp at h
  · intro h1; subst h1; simp at h

theorem stringify_head (v : Json) :
    ∃ c cs, stringify v = c :: cs ∧ isWs c = false ∧ c ≠ ']' ∧ c ≠ '}' := by
  match v with
  | .null => exact ⟨'n', _, rfl, by decide, by decide, by decide⟩
  | .bool true => exact ⟨'t', _, rfl, by decide, by decide, by decide⟩
  | .bool false => exact ⟨'f', _, rfl, by decide, by decide, by decide⟩
  | .num (.ofNat n) =>
    obtain ⟨c, cs, hc⟩ := List.exists_cons_of_ne_nil (natDigits_ne_nil (n := n))
    have hd := natDigits_digits c (by rw [hc]; simp)
    obtain ⟨p1, p2, p3⟩ := isDigit_sep_props hd
    exact ⟨c, cs, by simp [stringify, intRepr, hc], p1, p2, p3⟩
  | .num (.negSucc m) =>
    exact ⟨'-', natDigits (m + 1), by simp [stringify, intRepr], by decide, by decide, by decide⟩
  | .str s => exact ⟨'"', _, rfl, by decide, by decide, by decide⟩
  | .arr xs => exact ⟨'[', _, rfl, by decide, by decide, by decide⟩
  | .obj fs => exact ⟨'{', _, rfl, by decide, by decide, by decide⟩

theorem skipWs_cons_of {c : Char} {r : Str} (h : isWs c = false) :
    skipWs (c :: r) = c :: r := by
  simp [skipWs, List.dropWhile, h]

theorem skipWs_stringify_append (v : Json) (rest : Str) :
    skipWs (stringify v ++ rest) = stringify v ++ rest := by
  obtain ⟨c, cs, hc, hw, _, _⟩ := stringify_head v
  rw [hc, List.cons_append, skipWs_cons_of hw]

theorem hexDigit_ne_newline (d : Nat) : hexDigit d ≠ '\n' := by
  unfold hexDigit
  split <;> decide

theorem newline_not_mem_natDigits {n : Nat} : '\n' ∉ natDigits n := by
  intro hm
  have := natDigits_digits _ hm
  simp at this

theorem newline_not_mem_escape (s : Str) : '\n' ∉ escape s := by
  induction s with
  | nil => simp [escape]
  | cons c cs ih =>
    rw [escape_cons]
    intro hm
    rcases List.mem_append.mp hm with hm | hm
    · unfold escapeChar at hm
      by_cases h1 : c = '"'
      · simp [h1] at hm
      by_cases h2 : c = '\\'
      · simp [h1, h2] at hm
      by_cases h3 : c = '\n'
      · simp [h1, h2, h3] at hm
      by_cases h4 : c = '\t'
      · simp [h1, h2, h3, h4] at hm
      by_cases h5 : c = '\r'
      · simp [h1, h2, h3, h4, h5] at hm
      by_cases h6 : c = '\u0008'
      · simp [h1, h2, h3, h4, h5, h6] at hm
      by_cases h7 : c = '\u000C'
      · simp [h1, h2, h3, h4, h5, h6, h7] at hm
      by_cases h8 : c.toNat < 32
      · simp only [h1, h2, h3, h4, h5, h6, h7, if_false, h8, if_true] at hm
        simp only [List.mem_cons, List.not_mem_nil, or_false] at hm
        rcases hm with h | h | h | h | h | h <;>
          first
            | exact absurd h.symm (by decide)
            | exact absurd h.symm (hexDigit_ne_newline _)
      · simp only [h1, h2, h3, h4, h5, h6, h7, if_false, h8, if_true] at hm
        simp only [List.mem_cons, List.not_mem_nil, or_false] at hm
        subst hm
        simp at h8
    · exact ih hm

theorem newline_not_mem_elems_of (xs : List Json)
    (h : ∀ x ∈ xs, '\n' ∉ stringify x) : '\n' ∉ stringifyElems xs := by
  induction xs with
  | nil => simp [stringifyElems]
  | cons x xs ih =>
    cases xs with
    | nil => simpa [stringifyElems] using h x (by simp)
    | cons y ys =>
      intro hm
      rw [show stringifyElems (x :: y :: ys) =
        stringify x ++ ',' :: stringifyElems (y :: ys) from rfl] at hm
      rcases List.mem_append.mp hm with hm | hm
      · exact h x (by simp) hm
      · rcases List.mem_cons.mp hm with hm | hm
        · simp at hm
        · exact ih (fun a ha => h a (by simp [ha])) hm

theorem newline_not_mem_fields_of (fs : List (Str × Json))
    (h : ∀ kv ∈ fs, '\n' ∉ stringify kv.2) : '\n' ∉ stringifyFields fs := by
  induction fs with
  | nil => simp [stringifyFields]
  | cons kv fs ih =>
    obtain ⟨k, v⟩ := kv
    cases fs with
    | nil =>
      intro hm
      rw [show stringifyFields [(k, v)] =
        '"' :: escape k ++ '"' :: ':' :: stringify v from rfl] at hm
      rcases List.mem_cons.mp hm with hm | hm
      · simp at hm
      rcases List.mem_append.mp hm with hm | hm
      · exact newline_not_mem_escape k hm
      rcases List.mem_cons.mp hm with hm | hm
      · simp at hm
      rcases List.mem_cons.mp hm with hm | hm
      · simp at hm
      · exact h (k, v) (by simp) hm
    | cons g gs =>
      intro hm
      rw [show stringifyFields ((k, v) :: g :: gs) =
        ('"' :: escape k ++ '"' :: ':' :: stringify v) ++ ',' :: stringifyFields (g :: gs)
        from rfl] at hm
      rcases List.mem_append.mp hm with hm | hm
      · rcases List.mem_cons.mp hm with hm | hm
        · simp at hm
        rcases List.mem_append.mp hm with hm | hm
        · exact newline_not_mem_escape k hm
        rcases List.mem_cons.mp hm with hm | hm
        · simp at hm
        rcases List.mem_cons.mp hm with hm | hm
        · simp at hm
        · exact h (k, v) (by simp) hm
      · rcases List.mem_cons.mp hm with hm | hm
        · simp at hm
        · exact ih (fun a ha => h a (by simp [ha])) hm

mutual

/-- Node count of a JSON value; bounds the fuel the parser needs. -/
def sizeJ : Json → Nat
  | .null => 1
  | .bool _ => 1
  | .num _ => 1
  | .str _ => 1
  | .arr xs => 1 + sizeL xs
  | .obj fs => 1 + sizeF fs

/-- Node count of a JSON value list. -/
def sizeL : List Json → Nat
  | [] => 0
  | x :: xs => 1 + sizeJ x + sizeL xs

/-- Node count of a JSON field list. -/
def sizeF : List (Str × Json) → Nat
  | [] => 0
  | (_, v) :: fs => 1 + sizeJ v + sizeF fs

end

theorem one_le_sizeJ (v : Json) : 1 ≤ sizeJ v := by
  match v with
  | .null | .bool _ | .num _ | .str _ => simp [sizeJ]
  | .arr xs => rw [show sizeJ (.arr xs) = 1 + sizeL xs from rfl]; omega
  | .obj fs => rw [show sizeJ (.obj fs) = 1 + sizeF fs from rfl]; omega

theorem sizeL_le_of (xs : List Json) (h : ∀ x ∈ xs, sizeJ x ≤ (stringify x).length) :
    sizeL xs ≤ (stringifyElems xs).length + 1 := by
  induction xs with
  | nil => simp [sizeL, stringifyElems]
  | cons x xs ih =>
    cases xs with
    | nil =>
      have := h x (by simp)
      rw [show stringifyElems [x] = stringify x from rfl,
        show sizeL [x] = 1 + sizeJ x + sizeL [] from rfl]
      simp [sizeL]
      omega
    | cons y ys =>
      have h1 := h x (by simp)
      have h2 := ih (fun a ha => h a (by simp [ha]))
      rw [show stringifyElems (x :: y :: ys) =
        stringify x ++ ',' :: stringifyElems (y :: ys) from rfl,
        show sizeL (x :: y :: ys) = 1 + sizeJ x + sizeL (y :: ys) from rfl]
      simp [List.length_append]
      omega

theorem sizeF_le_of (fs : List (Str × Json)) (h : ∀ kv ∈ fs, sizeJ kv.2 ≤ (stringify kv.2).length) :
    sizeF fs ≤ (stringifyFields fs).length + 1 := by
  induction fs with
  | nil => simp [sizeF, stringifyFields]
  | cons kv fs ih =>
    obtain ⟨k, v⟩ := kv
    cases fs with
    | nil =>
      have hv : sizeJ v ≤ (stringify v).length := h (k, v) (by simp)
      rw [show stringifyFields [(k, v)] = '"' :: escape k ++ '"' :: ':' :: stringify v from rfl,
        show sizeF [(k, v)] = 1 + sizeJ v + sizeF [] from rfl]
      simp [sizeF, List.length_append]
      omega
    | cons g gs =>
      have h1 : sizeJ v ≤ (stringify v).length := h (k, v) (by simp)
      have h2 := ih (fun a ha => h a (by simp [ha]))
      rw [show stringifyFields ((k, v) :: g :: gs) =
        ('"' :: escape k ++ '"' :: ':' :: stringify v) ++ ',' :: stringifyFields (g :: gs)
        from rfl,
        show sizeF ((k, v) :: g :: gs) = 1 + sizeJ v + sizeF (g :: gs) from rfl]
      simp [List.length_append]
      omega

theorem sizeJ_le_length : ∀ v : Json, sizeJ v ≤ (stringify v).length := by
  intro v
  induction v using Json.indOn with
  | hnull => decide
  | hbool b => cases b <;> decide
  | hnum n =>
    have h1 : sizeJ (.num n) = 1 := rfl
    rw [h1]
    match n with
    | .ofNat m =>
      rw [show stringify (.num (.ofNat m)) = natDigits m from rfl]
      exact List.length_pos.mpr natDigits_ne_nil
    | .negSucc m =>
      rw [show stringify (.num (.negSucc m)) = '-' :: natDigits (m + 1) from rfl]
      simp
  | hstr s =>
    rw [show stringify (.str s) = '"' :: escape s ++ ['"'] from rfl,
      show sizeJ (.str s) = 1 from rfl]
    simp
  | harr xs ih =>
    have := sizeL_le_of xs ih
    rw [show stringify (.arr xs) = '[' :: stringifyElems xs ++ [']'] from rfl,
      show sizeJ (.arr xs) = 1 + sizeL xs from rfl]
    simp [List.length_append]
    omega
  | hobj fs ih =>
    have := sizeF_le_of fs ih
    rw [show stringify (.obj fs) = '{' :: stringifyFields fs ++ ['}'] from rfl,
      show sizeJ (.obj fs) = 1 + sizeF fs from rfl]
    simp [List.length_append]
    omega

/-- The output of `JSON.stringify` never contains a raw newline: every
control character, the newline included, is escaped.  This is what makes
the fenced-block wrapping of C7 unambiguous. -/
theorem newline_not_mem_stringify : ∀ v : Json, '\n' ∉ stringify v := by
  intro v
  induction v using Json.indOn with
  | hnull => decide
  | hbool b => cases b <;> decide
  | hnum n =>
    match n with
    | .ofNat m => simpa [stringify, intRepr] using newline_not_mem_natDigits (n := m)
    | .negSucc m =>
      intro hm
      rw [show stringify (.num (.negSucc m)) = '-' :: natDigits (m + 1) from rfl] at hm
      rcases List.mem_cons.mp hm with hm | hm
      · simp at hm
      · exact newline_not_mem_natDigits hm
  | hstr s =>
    intro hm
    rw [show stringify (.str s) = '"' :: escape s ++ ['"'] from rfl] at hm
    rcases List.mem_cons.mp hm with hm | hm
    · simp at hm
    rcases List.mem_append.mp hm with hm | hm
    · exact newline_not_mem_escape s hm
    · simp at hm
  | harr xs ih =>
    intro hm
    rw [show stringify (.arr xs) = '[' :: stringifyElems xs ++ [']'] from rfl] at hm
    rcases List.mem_cons.mp hm with hm | hm
    · simp at hm
    rcases List.mem_append.mp hm with hm | hm
    · exact newline_not_mem_elems_of xs ih hm
    · simp at hm
  | hobj fs ih =>
    intro hm
    rw [show stringify (.obj fs) = '{' :: stringifyFields fs ++ ['}'] from rfl] at hm
    rcases List.mem_cons.mp hm with hm | hm
    · simp at hm
    rcases List.mem_append.mp hm with hm | hm
    · exact newline_not_mem_fields_of fs ih hm
    · simp at hm

/-! ### The parser inverts the printer -/

theorem parseVal_succ (fuel : Nat) (s : Str) :
    parseVal (fuel + 1) s =
      (match skipWs s with
      | [] => none
      | c :: r =>
        if c = 'n' then expectLit ['u', 'l', 'l'] r .null
        else if c = 't' then expectLit ['r', 'u', 'e'] r (.bool true)
        else if c = 'f' then expectLit ['a', 'l', 's', 'e'] r (.bool false)
        else if c = '"' then (parseStrBody r).map (fun p => (Json.str p.1, p.2))
        else if c = '-' then (parseNat r).map (fun p => (Json.num (-(p.1 : Int)), p.2))
        else if c.isDigit then (parseNat (c :: r)).map (fun p => (Json.num (p.1 : Int), p.2))
        else if c = '[' then
          match skipWs r with
          | ']' :: r2 => some (.arr [], r2)
          | r2 => parseElems fuel r2 []
        else if c = '{' then
          match skipWs r with
          | '}' :: r2 => some (.obj [], r2)
          | r2 => parseFields fuel r2 []
        else none) := by
  rw [parseVal.eq_def]

theorem parseElems_succ (fuel : Nat) (s : Str) (acc : List Json) :
    parseElems (fuel + 1) s acc =
      (match parseVal fuel s with
      | none => none
      | some (v, r) =>
        match skipWs r with
        | ',' :: r2 => parseElems fuel r2 (acc ++ [v])
        | ']' :: r2 => some (.arr (acc ++ [v]), r2)
        | _ => none) := by
  rw [parseElems.eq_def]

theorem parseFields_succ (fuel : Nat) (s : Str) (acc : List (Str × Json)) :
    parseFields (fuel + 1) s acc =
      (match skipWs s with
      | '"' :: r =>
        match parseStrBody r with
        | none => none
        | some (k, r2) =>
          match skipWs r2 with
          | ':' :: r3 =>
            match parseVal fuel r3 with
            | none => none
            | some (v, r4) =>
              match skipWs r4 with
              | ',' :: r5 => parseFields fuel r5 (acc ++ [(k, v)])
              | '}' :: r5 => some (.obj (acc ++ [(k, v)]), r5)
              | _ => none
          | _ => none
      | _ => none) := by
  rw [parseFields.eq_def]

theorem isDigit_not_special {c : Char} (h : c.isDigit = true) :
    c ≠ 'n' ∧ c ≠ 't' ∧ c ≠ 'f' ∧ c ≠ '"' ∧ c ≠ '-' ∧ c ≠ '[' ∧ c ≠ '{' := by
  refine ⟨?_, ?_, ?_, ?_, ?_, ?_, ?_⟩ <;> (intro h1; subst h1; simp at h)

theorem noDigitHead_cons {c : Char} (h : c.isDigit = false) (r : Str) : noDigitHead (c :: r) := by
  intro a as hE
  injection hE with h1 _
  rw [← h1]
  exact h

theorem noDigitHead_nil : noDigitHead [] := by
  intro a as hE
  exact absurd hE (by simp)

theorem parseVal_rt_null (fuel : Nat) (rest : Str) :
    parseVal (fuel + 1) (stringify .null ++ rest) = some (.null, rest) := by
  rw [show stringify Json.null ++ rest = 'n' :: 'u' :: 'l' :: 'l' :: rest from rfl]
  rw [parseVal_succ, skipWs_cons_of (by decide)]
  simp [expectLit, List.isPrefixOf]

theorem parseVal_rt_bool (b : Bool) (fuel : Nat) (rest : Str) :
    parseVal (fuel + 1) (stringify (.bool b) ++ rest) = some (.bool b, rest) := by
  cases b
  · rw [show stringify (Json.bool false) ++ rest = 'f' :: 'a' :: 'l' :: 's' :: 'e' :: rest
      from rfl]
    rw [parseVal_succ, skipWs_cons_of (by decide)]
    simp [expectLit, List.isPrefixOf]
  · rw [show stringify (Json.bool true) ++ rest = 't' :: 'r' :: 'u' :: 'e' :: rest from rfl]
    rw [parseVal_succ, skipWs_cons_of (by decide)]
    simp [expectLit, List.isPrefixOf]

theorem parseVal_rt_ofNat (n : Nat) (fuel : Nat) (rest : Str) (hr : noDigitHead rest) :
    parseVal (fuel + 1) (stringify (.num (.ofNat n)) ++ rest) = some (.num (.ofNat n), rest) := by
  rw [show stringify (Json.num (.ofNat n)) = natDigits n from rfl]
  obtain ⟨c, cs, hc⟩ := List.exists_cons_of_ne_nil (natDigits_ne_nil (n := n))
  have hd := natDigits_digits c (by rw [hc]; simp)
  obtain ⟨w1, _, _⟩ := isDigit_sep_props hd
  obtain ⟨n1, n2, n3, n4, n5, n6, n7⟩ := isDigit_not_special hd
  rw [hc, List.cons_append, parseVal_succ, skipWs_cons_of w1]
  simp only [n1, n2, n3, n4, n5, if_false, hd, if_true]
  rw [show c :: (cs ++ rest) = (c :: cs) ++ rest from rfl, ← hc, parseNat_natDigits hr]
  rfl

theorem parseVal_rt_negSucc (m : Nat) (fuel : Nat) (rest : Str) (hr : noDigitHead rest) :
    parseVal (fuel + 1) (stringify (.num (.negSucc m)) ++ rest)
      = some (.num (.negSucc m), rest) := by
  rw [show stringify (Json.num (.negSucc m)) ++ rest = '-' :: (natDigits (m + 1) ++ rest) from by
    simp [stringify, intRepr]]
  rw [parseVal_succ, skipWs_cons_of (by decide)]
  simp only [reduceIte, parseNat_natDigits hr]
  simp [Int.negSucc_eq]

theorem parseVal_rt_str (s : Str) (fuel : Nat) (rest : Str) :
    parseVal (fuel + 1) (stringify (.str s) ++ rest) = some (.str s, rest) := by
  rw [show stringify (Json.str s) ++ rest = '"' :: (escape s ++ '"' :: rest) from by
    simp [stringify]]
  rw [parseVal_succ, skipWs_cons_of (by decide)]
  simp [parseStrBody_escape]

theorem parseVal_rt_arrNil (fuel : Nat) (rest : Str) :
    parseVal (fuel + 1) (stringify (.arr []) ++ rest) = some (.arr [], rest) := by
  rw [show stringify (Json.arr []) ++ rest = '[' :: (']' :: rest) from rfl]
  rw [parseVal_succ, skipWs_cons_of (by decide)]
  simp only []
  rw [if_neg (by decide), if_neg (by decide), if_neg (by decide), if_neg (by decide),
    if_neg (by decide), if_neg (by decide), if_pos trivial, skipWs_cons_of (by decide)]
  rfl

theorem parseVal_rt_objNil (fuel : Nat) (rest : Str) :
    parseVal (fuel + 1) (stringify (.obj []) ++ rest) = some (.obj [], rest) := by
  rw [show stringify (Json.obj []) ++ rest = '{' :: ('}' :: rest) from rfl]
  rw [parseVal_succ, skipWs_cons_of (by decide)]
  simp only []
  rw [if_neg (by decide), if_neg (by decide), if_neg (by decide), if_neg (by decide),
    if_neg (by decide), if_neg (by decide), if_neg (by decide), if_pos trivial,
    skipWs_cons_of (by decide)]
  rfl

theorem parseVal_succ_bracket (fuel : Nat) (c : Char) (t : Str) (hw : isWs c = false)
    (hbr : c ≠ ']') :
    parseVal (fuel + 1) ('[' :: c :: t) = parseElems fuel (c :: t) [] := by
  rw [parseVal_succ, skipWs_cons_of (by decide)]
  simp only []
  rw [if_neg (by decide), if_neg (by decide), if_neg (by decide), if_neg (by decide),
    if_neg (by decide), if_neg (by decide), if_pos trivial, skipWs_cons_of hw]
  split
  · rename_i heq
    rw [List.cons.injEq] at heq
    exact absurd heq.1 hbr
  · rfl

theorem parseVal_succ_brace (fuel : Nat) (c : Char) (t : Str) (hw : isWs c = false)
    (hbc : c ≠ '}') :
    parseVal (fuel + 1) ('{' :: c :: t) = parseFields fuel (c :: t) [] := by
  rw [parseVal_succ, skipWs_cons_of (by decide)]
  simp only []
  rw [if_neg (by decide), if_neg (by decide), if_neg (by decide), if_neg (by decide),
    if_neg (by decide), if_neg (by decide), if_neg (by decide), if_pos trivial,
    skipWs_cons_of hw]
  split
  · rename_i heq
    rw [List.cons.injEq] at heq
    exact absurd heq.1 hbc
  · rfl

theorem elemsHead (x : Json) (xs : List Json) (tail : Str) :
    ∃ c t, stringifyElems (x :: xs) ++ tail = c :: t ∧ isWs c = false ∧ c ≠ ']' ∧ c ≠ '}' := by
  obtain ⟨c, cs, hc, hw, hbr, hbc⟩ := stringify_head x
  cases xs with
  | nil =>
    exact ⟨c, cs ++ tail, by rw [show stringifyElems [x] = stringify x from rfl, hc]; simp,
      hw, hbr, hbc⟩
  | cons y ys =>
    refine ⟨c, cs ++ ',' :: stringifyElems (y :: ys) ++ tail, ?_, hw, hbr, hbc⟩
    rw [show stringifyElems (x :: y :: ys) = stringify x ++ ',' :: stringifyElems (y :: ys)
      from rfl, hc]
    simp

theorem fieldsHead (kv : Str × Json) (fs : List (Str × Json)) (tail : Str) :
    ∃ t, stringifyFields (kv :: fs) ++ tail = '"' :: t := by
  obtain ⟨k, v⟩ := kv
  cases fs with
  | nil =>
    exact ⟨escape k ++ '"' :: ':' :: stringify v ++ tail, by
      rw [show stringifyFields [(k, v)] = '"' :: escape k ++ '"' :: ':' :: stringify v from rfl]
      simp⟩
  | cons g gs =>
    refine ⟨escape k ++ '"' :: ':' :: stringify v ++ ',' :: stringifyFields (g :: gs) ++ tail, ?_⟩
    rw [show stringifyFields ((k, v) :: g :: gs) =
      ('"' :: escape k ++ '"' :: ':' :: stringify v) ++ ',' :: stringifyFields (g :: gs)
      from rfl]
    simp

theorem parseVal_rt_arrCons (x : Json) (xs : List Json) (fuel : Nat) (rest : Str)
    (he : parseElems fuel (stringifyElems (x :: xs) ++ ']' :: rest) []
      = some (.arr (x :: xs), rest)) :
    parseVal (fuel + 1) (stringify (.arr (x :: xs)) ++ rest) = some (.arr (x :: xs), rest) := by
  rw [show stringify (Json.arr (x :: xs)) ++ rest =
    '[' :: (stringifyElems (x :: xs) ++ ']' :: rest) from by
    rw [show stringify (Json.arr (x :: xs)) = '[' :: stringifyElems (x :: xs) ++ [']'] from rfl]
    simp]
  obtain ⟨c, t, hct, hw, hbr, _⟩ := elemsHead x xs (']' :: rest)
  rw [hct, parseVal_succ_bracket fuel c t hw hbr, ← hct, he]

theorem parseVal_rt_objCons (kv : Str × Json) (fs : List (Str × Json)) (fuel : Nat) (rest : Str)
    (hf : parseFields fuel (stringifyFields (kv :: fs) ++ '}' :: rest) []
      = some (.obj (kv :: fs), rest)) :
    parseVal (fuel + 1) (stringify (.obj (kv :: fs)) ++ rest) = some (.obj (kv :: fs), rest) := by
  rw [show stringify (Json.obj (kv :: fs)) ++ rest =
    '{' :: (stringifyFields (kv :: fs) ++ '}' :: rest) from by
    rw [show stringify (Json.obj (kv :: fs)) = '{' :: stringifyFields (kv :: fs) ++ ['}']
      from rfl]
    simp]
  obtain ⟨t, hct⟩ := fieldsHead kv fs ('}' :: rest)
  rw [hct, parseVal_succ_brace fuel '"' t (by decide) (by decide), ← hct, hf]

theorem parseElems_rt_single (fuel : Nat) (x : Json) (acc : List Json) (rest : Str)
    (hv : parseVal fuel (stringify x ++ ']' :: rest) = some (x, ']' :: rest)) :
    parseElems (fuel + 1) (stringifyElems [x] ++ ']' :: rest) acc
      = some (.arr (acc ++ [x]), rest) := by
  rw [show stringifyElems [x] = stringify x from rfl, parseElems_succ, hv]
  simp only []
  rw [skipWs_cons_of (by decide)]
  rfl

theorem parseElems_rt_step (fuel : Nat) (x y : Json) (ys : List Json) (acc : List Json)
    (rest : Str)
    (hv : parseVal fuel (stringify x ++ ',' :: (stringifyElems (y :: ys) ++ ']' :: rest))
      = some (x, ',' :: (stringifyElems (y :: ys) ++ ']' :: rest)))
    (he : parseElems fuel (stringifyElems (y :: ys) ++ ']' :: rest) (acc ++ [x])
      = some (.arr ((acc ++ [x]) ++ y :: ys), rest)) :
    parseElems (fuel + 1) (stringifyElems (x :: y :: ys) ++ ']' :: rest) acc
      = some (.arr (acc ++ x :: y :: ys), rest) := by
  rw [show stringifyElems (x :: y :: ys) ++ ']' :: rest =
    stringify x ++ ',' :: (stringifyElems (y :: ys) ++ ']' :: rest) from by
    rw [show stringifyElems (x :: y :: ys) = stringify x ++ ',' :: stringifyElems (y :: ys)
      from rfl]
    simp]
  rw [parseElems_succ, hv]
  simp only []
  rw [skipWs_cons_of (by decide)]
  show parseElems fuel (stringifyElems (y :: ys) ++ ']' :: rest) (acc ++ [x])
    = some (Json.arr (acc ++ x :: y :: ys), rest)
  rw [he]
  simp

theorem parseFields_rt_single (fuel : Nat) (k : Str) (v : Json) (acc : List (Str × Json))
    (rest : Str)
    (hv : parseVal fuel (stringify v ++ '}' :: rest) = some (v, '}' :: rest)) :
    parseFields (fuel + 1) (stringifyFields [(k, v)] ++ '}' :: rest) acc
      = some (.obj (acc ++ [(k, v)]), rest) := by
  rw [show stringifyFields [(k, v)] ++ '}' :: rest =
    '"' :: (escape k ++ '"' :: (':' :: (stringify v ++ '}' :: rest))) from by
    rw [show stringifyFields [(k, v)] = '"' :: escape k ++ '"' :: ':' :: stringify v from rfl]
    simp]
  rw [parseFields_succ, skipWs_cons_of (by decide)]
  show (match parseStrBody (escape k ++ '"' :: (':' :: (stringify v ++ '}' :: rest))) with
    | none => none
    | some (k1, r2) =>
      match skipWs r2 with
      | ':' :: r3 =>
        match parseVal fuel r3 with
        | none => none
        | some (v1, r4) =>
          match skipWs r4 with
          | ',' :: r5 => parseFields fuel r5 (acc ++ [(k1, v1)])
          | '}' :: r5 => some (.obj (acc ++ [(k1, v1)]), r5)
          | _ => none
      | _ => none) = some (.obj (acc ++ [(k, v)]), rest)
  rw [parseStrBody_escape]
  show (match skipWs (':' :: (stringify v ++ '}' :: rest)) with
    | ':' :: r3 =>
      match parseVal fuel r3 with
      | none => none
      | some (v1, r4) =>
        match skipWs r4 with
        | ',' :: r5 => parseFields fuel r5 (acc ++ [(k, v1)])
        | '}' :: r5 => some (.obj (acc ++ [(k, v1)]), r5)
        | _ => none
    | _ => none) = some (.obj (acc ++ [(k, v)]), rest)
  rw [skipWs_cons_of (by decide)]
  show (match parseVal fuel (stringify v ++ '}' :: rest) with
    | none => none
    | some (v1, r4) =>
      match skipWs r4 with
      | ',' :: r5 => parseFields fuel r5 (acc ++ [(k, v1)])
      | '}' :: r5 => some (.obj (acc ++ [(k, v1)]), r5)
      | _ => none) = some (.obj (acc ++ [(k, v)]), rest)
  rw [hv]
  show (match skipWs ('}' :: rest) with
    | ',' :: r5 => parseFields fuel r5 (acc ++ [(k, v)])
    | '}' :: r5 => some (.obj (acc ++ [(k, v)]), r5)
    | _ => none) = some (.obj (acc ++ [(k, v)]), rest)
  rw [skipWs_cons_of (by decide)]
  rfl

theorem parseFields_rt_step (fuel : Nat) (k : Str) (v : Json) (g : Str × Json)
    (gs : List (Str × Json)) (acc : List (Str × Json)) (rest : Str)
    (hv : parseVal fuel (stringify v ++ ',' :: (stringifyFields (g :: gs) ++ '}' :: rest))
      = some (v, ',' :: (stringifyFields (g :: gs) ++ '}' :: rest)))
    (hf : parseFields fuel (stringifyFields (g :: gs) ++ '}' :: rest) (acc ++ [(k, v)])
      = some (.obj ((acc ++ [(k, v)]) ++ g :: gs), rest)) :
    parseFields (fuel + 1) (stringifyFields ((k, v) :: g :: gs) ++ '}' :: rest) acc
      = some (.obj (acc ++ (k, v) :: g :: gs), rest) := by
  rw [show stringifyFields ((k, v) :: g :: gs) ++ '}' :: rest =
    '"' :: (escape k ++ '"' :: (':' ::
      (stringify v ++ ',' :: (stringifyFields (g :: gs) ++ '}' :: rest)))) from by
    rw [show stringifyFields ((k, v) :: g :: gs) =
      ('"' :: escape k ++ '"' :: ':' :: stringify v) ++ ',' :: stringifyFields (g :: gs)
      from rfl]
    simp]
  rw [parseFields_succ, skipWs_cons_of (by decide)]
  show (match parseStrBody (escape k ++ '"' :: (':' ::
      (stringify v ++ ',' :: (stringifyFields (g :: gs) ++ '}' :: rest)))) with
    | none => none
    | some (k1, r2) =>
      match skipWs r2 with
      | ':' :: r3 =>
        match parseVal fuel r3 with
        | none => none
        | some (v1, r4) =>
          match skipWs r4 with
          | ',' :: r5 => parseFields fuel r5 (acc ++ [(k1, v1)])
          | '}' :: r5 => some (.obj (acc ++ [(k1, v1)]), r5)
          | _ => none
      | _ => none) = some (.obj (acc ++ (k, v) :: g :: gs), rest)
  rw [parseStrBody_escape]
  show (match skipWs (':' :: (stringify v ++ ',' :: (stringifyFields (g :: gs) ++ '}' :: rest)))
      with
    | ':' :: r3 =>
      match parseVal fuel r3 with
      | none => none
      | some (v1, r4) =>
        match skipWs r4 with
        | ',' :: r5 => parseFields fuel r5 (acc ++ [(k, v1)])
        | '}' :: r5 => some (.obj (acc ++ [(k, v1)]), r5)
        | _ => none
    | _ => none) = some (.obj (acc ++ (k, v) :: g :: gs), rest)
  rw [skipWs_cons_of (by decide)]
  show (match parseVal fuel (stringify v ++ ',' :: (stringifyFields (g :: gs) ++ '}' :: rest))
      with
    | none => none
    | some (v1, r4) =>
      match skipWs r4 with
      | ',' :: r5 => parseFields fuel r5 (acc ++ [(k, v1)])
      | '}' :: r5 => some (.obj (acc ++ [(k, v1)]), r5)
      | _ => none) = some (.obj (acc ++ (k, v) :: g :: gs), rest)
  rw [hv]
  show (match skipWs (',' :: (stringifyFields (g :: gs) ++ '}' :: rest)) with
    | ',' :: r5 => parseFields fuel r5 (acc ++ [(k, v)])
    | '}' :: r5 => some (.obj (acc ++ [(k, v)]), r5)
    | _ => none) = some (.obj (acc ++ (k, v) :: g :: gs), rest)
  rw [skipWs_cons_of (by decide)]
  show parseFields fuel (stringifyFields (g :: gs) ++ '}' :: rest) (acc ++ [(k, v)])
    = some (.obj (acc ++ (k, v) :: g :: gs), rest)
  rw [hf]
  simp

theorem parse_stringify_aux : ∀ k,
    (∀ (v : Json) (rest : Str) (fuel : Nat), sizeJ v ≤ k → sizeJ v ≤ fuel → noDigitHead rest →
      parseVal fuel (stringify v ++ rest) = some (v, rest)) ∧
    (∀ (x : Json) (xs : List Json) (acc : List Json) (rest : Str) (fuel : Nat),
      sizeL (x :: xs) ≤ k → sizeL (x :: xs) ≤ fuel →
      parseElems fuel (stringifyElems (x :: xs) ++ ']' :: rest) acc
        = some (.arr (acc ++ x :: xs), rest)) ∧
    (∀ (kv : Str × Json) (fs : List (Str × Json)) (acc : List (Str × Json)) (rest : Str)
      (fuel : Nat),
      sizeF (kv :: fs) ≤ k → sizeF (kv :: fs) ≤ fuel →
      parseFields fuel (stringifyFields (kv :: fs) ++ '}' :: rest) acc
        = some (.obj (acc ++ kv :: fs), rest)) := by
  intro k
  induction k with
  | zero =>
    refine ⟨?_, ?_, ?_⟩
    · intro v rest fuel h1 _ _
      have := one_le_sizeJ v
      omega
    · intro x xs acc rest fuel h1 _
      rw [show sizeL (x :: xs) = 1 + sizeJ x + sizeL xs from rfl] at h1
      omega
    · intro kv fs acc rest fuel h1 _
      obtain ⟨k2, v⟩ := kv
      rw [show sizeF ((k2, v) :: fs) = 1 + sizeJ v + sizeF fs from rfl] at h1
      omega
  | succ k ih =>
    obtain ⟨ihv, ihe, ihf⟩ := ih
    refine ⟨?_, ?_, ?_⟩
    · intro v rest fuel hk hfu hr
      have h1 := one_le_sizeJ v
      match fuel with
      | 0 => omega
      | fuel + 1 =>
        match v with
        | .null => exact parseVal_rt_null fuel rest
        | .bool b => exact parseVal_rt_bool b fuel rest
        | .num (.ofNat n) => exact parseVal_rt_ofNat n fuel rest hr
        | .num (.negSucc m) => exact parseVal_rt_negSucc m fuel rest hr
        | .str s => exact parseVal_rt_str s fuel rest
        | .arr [] => exact parseVal_rt_arrNil fuel rest
        | .arr (x :: xs) =>
          apply parseVal_rt_arrCons
          rw [show sizeJ (.arr (x :: xs)) = 1 + sizeL (x :: xs) from rfl] at hk hfu
          have := ihe x xs [] rest fuel (by omega) (by omega)
          simpa using this
        | .obj [] => exact parseVal_rt_objNil fuel rest
        | .obj (kv :: fs) =>
          apply parseVal_rt_objCons
          rw [show sizeJ (.obj (kv :: fs)) = 1 + sizeF (kv :: fs) from rfl] at hk hfu
          have := ihf kv fs [] rest fuel (by omega) (by omega)
          simpa using this
    · intro x xs acc rest fuel hk hfu
      rw [show sizeL (x :: xs) = 1 + sizeJ x + sizeL xs from rfl] at hk hfu
      have hx1 := one_le_sizeJ x
      match fuel with
      | 0 => omega
      | fuel + 1 =>
        cases xs with
        | nil =>
          apply parseElems_rt_single
          exact ihv x (']' :: rest) fuel (by simp [sizeL] at hk; omega)
            (by simp [sizeL] at hfu; omega) (noDigitHead_cons (by decide) rest)
        | cons y ys =>
          have hyl : 1 ≤ sizeL (y :: ys) := by
            rw [show sizeL (y :: ys) = 1 + sizeJ y + sizeL ys from rfl]
            omega
          apply parseElems_rt_step
          · exact ihv x _ fuel (by omega) (by omega) (noDigitHead_cons (by decide) _)
          · exact ihe y ys (acc ++ [x]) rest fuel (by omega) (by omega)
    · intro kv fs acc rest fuel hk hfu
      obtain ⟨k2, v⟩ := kv
      rw [show sizeF ((k2, v) :: fs) = 1 + sizeJ v + sizeF fs from rfl] at hk hfu
      have hv1 := one_le_sizeJ v
      match fuel with
      | 0 => omega
      | fuel + 1 =>
        cases fs with
        | nil =>
          apply parseFields_rt_single
          exact ihv v ('}' :: rest) fuel (by simp [sizeF] at hk; omega)
            (by simp [sizeF] at hfu; omega) (noDigitHead_cons (by decide) rest)
        | cons g gs =>
          have hgl : 1 ≤ sizeF (g :: gs) := by
            obtain ⟨k3, v3⟩ := g
            rw [show sizeF ((k3, v3) :: gs) = 1 + sizeJ v3 + sizeF gs from rfl]
            omega
          apply parseFields_rt_step
          · exact ihv v _ fuel (by omega) (by omega) (noDigitHead_cons (by decide) _)
          · exact ihf g gs (acc ++ [(k2, v)]) rest fuel (by omega) (by omega)

/-- Round trip of the modelled platform pair: `JSON.parse` inverts
`JSON.stringify` on every JSON value of the model. -/
theorem jsonParse_stringify (v : Json) : jsonParse (stringify v) = some v := by
  obtain ⟨rt, _, _⟩ := parse_stringify_aux (sizeJ v)
  have h := rt v [] ((stringify v).length + 1) (le_refl _)
    (le_trans (sizeJ_le_length v) (by omega)) noDigitHead_nil
  rw [List.append_nil] at h
  unfold jsonParse
  rw [h]
  simp [skipWs]

/-! ### The fenced-block extractor on fence-wrapped text -/

theorem fencedMatch_wrap {s : Str} (hnl : '\n' ∉ s) :
    fencedMatch (fenceOpen ++ s ++ fenceClose) = some s := by
  have hopen : firstMatch fenceOpen (fenceOpen ++ s ++ fenceClose) = some 0 := by
    apply firstMatch_eq_some_of
    · rw [List.drop_zero, List.append_assoc]
      exact List.prefix_append _ _
    · omega
  have hdrop : (fenceOpen ++ s ++ fenceClose).drop 8 = s ++ fenceClose := by
    rw [List.append_assoc]
    exact List.drop_left fenceOpen (s ++ fenceClose)
  have hclose : firstMatch fenceClose (s ++ fenceClose) = some s.length := by
    apply firstMatch_eq_some_of
    · rw [List.drop_left]
    · intro j hj hpre
      have hhead : ((s ++ fenceClose).drop j).head? = some '\n' := by
        obtain ⟨tail, htail⟩ := hpre
        rw [← htail]
        rfl
      rw [List.head?_drop] at hhead
      have : (s ++ fenceClose)[j]? = s[j]? := by
        rw [List.getElem?_append]
        simp [hj]
      rw [this] at hhead
      exact hnl (List.getElem?_mem hhead)
  have htake : (s ++ fenceClose).take s.length = s := List.take_left s fenceClose
  unfold fencedMatch
  rw [hopen]
  simp only [Nat.zero_add, hdrop, hclose, htake]

/-! ### Run-loop infrastructure -/

theorem updateById_getElem (l : List Agent) (i0 : Str) (f : Agent → Agent) (j : Nat) :
    (updateById l i0 f)[j]? = (l[j]?).map (fun b => if b.id = i0 then f b else b) := by
  simp [updateById]

theorem updateById_map_id (l : List Agent) (i0 : Str) (f : Agent → Agent)
    (hf : ∀ b, (f b).id = b.id) :
    (updateById l i0 f).map Agent.id = l.map Agent.id := by
  unfold updateById
  rw [List.map_map]
  apply List.map_congr_left
  intro b _
  by_cases hb : b.id = i0 <;> simp [hb, hf]

theorem nodup_ids_ne {l : List Agent} (h : (l.map Agent.id).Nodup) {i j : Nat} (hij : i ≠ j)
    {a b : Agent} (ha : l[i]? = some a) (hb : l[j]? = some b) : a.id ≠ b.id := by
  have hia : (l.map Agent.id)[i]? = some a.id := by
    rw [List.getElem?_map, ha]; rfl
  have hjb : (l.map Agent.id)[j]? = some b.id := by
    rw [List.getElem?_map, hb]; rfl
  intro hEq
  have hi : i < (l.map Agent.id).length := by
    by_contra hc
    rw [List.getElem?_eq_none (by omega)] at hia
    exact absurd hia (by simp)
  have hj : j < (l.map Agent.id).length := by
    by_contra hc
    rw [List.getElem?_eq_none (by omega)] at hjb
    exact absurd hjb (by simp)
  rw [List.getElem?_eq_getElem hi] at hia
  rw [List.getElem?_eq_getElem hj] at hjb
  have : (l.map Agent.id)[i] = (l.map Agent.id)[j] := by
    rw [Option.some_inj.mp hia, Option.some_inj.mp hjb, hEq]
  exact hij (List.Nodup.getElem_inj_iff h |>.mp this)

theorem runLoop_nil (gOk oOk : Bool) (net : Nat → Str → Except RawErr Str) (doc : Str)
    (i : Nat) (cur : List Agent) (ks : Keys) (tr : List (Nat × Str)) :
    runLoop gOk oOk net doc [] i cur ks tr = ⟨cur, ks, tr, none, false⟩ := rfl

theorem runLoop_cons (gOk oOk : Bool) (net : Nat → Str → Except RawErr Str) (doc : Str)
    (a : Agent) (rest : List Agent) (i : Nat) (cur : List Agent) (ks : Keys)
    (tr : List (Nat × Str)) :
    runLoop gOk oOk net doc (a :: rest) i cur ks tr =
      (match (processAgent gOk oOk (net i) a doc).1 with
       | .ok out =>
         runLoop gOk oOk net doc rest (i + 1)
           (updateById (updateById cur a.id (fun b => { b with status := .running })) a.id
             (fun b =>
               { b with status := .success, output := some out,
                        outputJson := parseJsonOutput out })) ks
           (if (processAgent gOk oOk (net i) a doc).2 then
              tr ++ [(i, fullPrompt a.prompt doc)] else tr)
       | .error msg =>
         ⟨updateById (updateById cur a.id (fun b => { b with status := .running })) a.id
            (fun b => { b with status := .error, error := some msg }),
          if containsStr msg apiKeyLit then invalidateKeys msg ks else ks,
          if (processAgent gOk oOk (net i) a doc).2 then
            tr ++ [(i, fullPrompt a.prompt doc)] else tr,
          if containsStr msg apiKeyLit then some msg else none,
          containsStr msg apiKeyLit⟩) := rfl

theorem updateById_ne (l : List Agent) (i0 : Str) (f : Agent → Agent) (j : Nat)
    (h : ∀ b, l[j]? = some b → b.id ≠ i0) : (updateById l i0 f)[j]? = l[j]? := by
  rw [updateById_getElem]
  match hb : l[j]? with
  | none => rfl
  | some b => simp [h b hb]

theorem updateById_at (l : List Agent) (i0 : Str) (f : Agent → Agent) (j : Nat) (b : Agent)
    (hb : l[j]? = some b) (hid : b.id = i0) : (updateById l i0 f)[j]? = some (f b) := by
  rw [updateById_getElem, hb]
  simp [hid]

theorem runLoop_final (gOk oOk : Bool) (net : Nat → Str → Except RawErr Str) (doc : Str)
    (originals : List Agent) (hnd : (originals.map Agent.id).Nodup) :
    ∀ (rem : List Agent) (i : Nat) (cur : List Agent) (ks : Keys) (tr : List (Nat × Str)),
      rem = originals.drop i →
      cur.map Agent.id = originals.map Agent.id →
      (∀ j, i ≤ j → cur[j]? = (originals[j]?).map resetAgent) →
      (∀ j, j < i → ∀ b, cur[j]? = some b → b.status = .success) →
      (∀ p ∈ tr, p.1 < i) →
      ∀ k a, (runLoop gOk oOk net doc rem i cur ks tr).agents[k]? = some a →
        a.status = .error →
        (∀ j, k < j →
          (runLoop gOk oOk net doc rem i cur ks tr).agents[j]?
            = (originals[j]?).map resetAgent) ∧
        (∀ p ∈ (runLoop gOk oOk net doc rem i cur ks tr).trace, p.1 ≤ k) := by
  intro rem
  induction rem with
  | nil =>
    intro i cur ks tr heq hids hreset hsucc htr k a hka hstat
    rw [runLoop_nil] at hka
    exfalso
    by_cases hki : k < i
    · have := hsucc k hki a hka
      rw [this] at hstat
      exact absurd hstat (by decide)
    · have h2 := hreset k (by omega)
      rw [hka] at h2
      match ho : originals[k]? with
      | none => rw [ho] at h2; exact absurd h2 (by simp)
      | some o =>
        rw [ho] at h2
        simp at h2
        rw [h2] at hstat
        exact absurd hstat (by simp [resetAgent])
  | cons a0 rest ih =>
    intro i cur ks tr heq hids hreset hsucc htr
    have hA0 : originals[i]? = some a0 := by
      have h0 : (originals.drop i)[0]? = some a0 := by rw [← heq]; simp
      rwa [List.getElem?_drop, Nat.add_zero] at h0
    have hrest : rest = originals.drop (i + 1) := by
      have h0 : (originals.drop i).tail = rest := by rw [← heq]; simp
      rw [List.tail_drop] at h0
      exact h0.symm
    have hcuri : cur[i]? = some (resetAgent a0) := by
      rw [hreset i (le_refl i), hA0]
      rfl
    have hndc : (cur.map Agent.id).Nodup := by rw [hids]; exact hnd
    have hne : ∀ j, j ≠ i → ∀ b, cur[j]? = some b → b.id ≠ a0.id := by
      intro j hj b hb
      have := nodup_ids_ne hndc hj hb hcuri
      simpa [resetAgent] using this
    rw [runLoop_cons]
    cases hres : (processAgent gOk oOk (net i) a0 doc).1 with
    | ok out =>
      simp only []
      apply ih (i + 1) _ ks _ hrest
      · rw [updateById_map_id _ _ _ ?hid1, updateById_map_id _ _ _ ?hid2]
        · exact hids
        case hid1 => intro b; rfl
        case hid2 => intro b; rfl
      · intro j hj
        rw [updateById_ne, updateById_ne]
        · exact hreset j (by omega)
        · exact hne j (by omega)
        · intro b hb
          rw [updateById_ne _ _ _ _ (hne j (by omega))] at hb
          exact hne j (by omega) b hb
      · intro j hj b hb
        by_cases hji : j = i
        · subst hji
          rw [updateById_at _ _ _ _ _
              (updateById_at _ _ _ _ _ hcuri (by rfl)) (by rfl)] at hb
          have := Option.some_inj.mp hb
          rw [← this]
        · rw [updateById_ne _ _ _ _ (fun b2 hb2 => by
              rw [updateById_ne _ _ _ _ (hne j hji)] at hb2
              exact hne j hji b2 hb2),
            updateById_ne _ _ _ _ (hne j hji)] at hb
          exact hsucc j (by omega) b hb
      · intro p hp
        by_cases hd : (processAgent gOk oOk (net i) a0 doc).2
        · rw [if_pos hd] at hp
          rcases List.mem_append.mp hp with hp | hp
          · exact lt_trans (htr p hp) (by omega)
          · rcases List.mem_singleton.mp hp with rfl
            omega
        · rw [if_neg hd] at hp
          exact lt_trans (htr p hp) (by omega)
    | error msg =>
      simp only []
      intro k a hka hstat
      have hk_eq : k = i := by
        by_contra hki
        by_cases hlt : k < i
        · rw [updateById_ne _ _ _ _ (fun b2 hb2 => by
              rw [updateById_ne _ _ _ _ (hne k hki)] at hb2
              exact hne k hki b2 hb2),
            updateById_ne _ _ _ _ (hne k hki)] at hka
          have := hsucc k hlt a hka
          rw [this] at hstat
          exact absurd hstat (by decide)
        · rw [updateById_ne _ _ _ _ (fun b2 hb2 => by
              rw [updateById_ne _ _ _ _ (hne k hki)] at hb2
              exact hne k hki b2 hb2),
            updateById_ne _ _ _ _ (hne k hki)] at hka
          have h2 := hreset k (by omega)
          rw [hka] at h2
          match ho : originals[k]? with
          | none => rw [ho] at h2; exact absurd h2 (by simp)
          | some o =>
            rw [ho] at h2
            simp at h2
            rw [h2] at hstat
            exact absurd hstat (by simp [resetAgent])
      subst hk_eq
      constructor
      · intro j hj
        rw [updateById_ne _ _ _ _ (fun b2 hb2 => by
            rw [updateById_ne _ _ _ _ (hne j (by omega))] at hb2
            exact hne j (by omega) b2 hb2),
          updateById_ne _ _ _ _ (hne j (by omega))]
        exact hreset j (by omega)
      · intro p hp
        by_cases hd : (processAgent gOk oOk (net k) a0 doc).2
        · rw [if_pos hd] at hp
          rcases List.mem_append.mp hp with hp | hp
          · exact le_of_lt (htr p hp)
          · rcases List.mem_singleton.mp hp with rfl
            exact le_refl _
        · rw [if_neg hd] at hp
          exact le_of_lt (htr p hp)

theorem runLoop_trace (gOk oOk : Bool) (net : Nat → Str → Except RawErr Str) (doc : Str)
    (originals : List Agent) :
    ∀ (rem : List Agent) (i : Nat) (cur : List Agent) (ks : Keys) (tr : List (Nat × Str)),
      rem = originals.drop i →
      ∀ p ∈ (runLoop gOk oOk net doc rem i cur ks tr).trace,
        p ∈ tr ∨ ∃ a, originals[p.1]? = some a ∧ p.2 = fullPrompt a.prompt doc := by
  intro rem
  induction rem with
  | nil =>
    intro i cur ks tr heq p hp
    rw [runLoop_nil] at hp
    exact Or.inl hp
  | cons a0 rest ih =>
    intro i cur ks tr heq p hp
    have hA0 : originals[i]? = some a0 := by
      have h0 : (originals.drop i)[0]? = some a0 := by rw [← heq]; simp
      rwa [List.getElem?_drop, Nat.add_zero] at h0
    have hrest : rest = originals.drop (i + 1) := by
      have h0 : (originals.drop i).tail = rest := by rw [← heq]; simp
      rw [List.tail_drop] at h0
      exact h0.symm
    have htr1 : ∀ q, q ∈ (if (processAgent gOk oOk (net i) a0 doc).2 then
        tr ++ [(i, fullPrompt a0.prompt doc)] else tr) →
        q ∈ tr ∨ ∃ a, originals[q.1]? = some a ∧ q.2 = fullPrompt a.prompt doc := by
      intro q hq
      by_cases hd : (processAgent gOk oOk (net i) a0 doc).2
      · rw [if_pos hd] at hq
        rcases List.mem_append.mp hq with hq | hq
        · exact Or.inl hq
        · rcases List.mem_singleton.mp hq with rfl
          exact Or.inr ⟨a0, hA0, rfl⟩
      · rw [if_neg hd] at hq
        exact Or.inl hq
    rw [runLoop_cons] at hp
    cases hres : (processAgent gOk oOk (net i) a0 doc).1 with
    | ok out =>
      rw [hres] at hp
      simp only [] at hp
      rcases ih (i + 1) _ ks _ hrest p hp with hin | found
      · exact htr1 p hin
      · exact Or.inr found
    | error msg =>
      rw [hres] at hp
      simp only [] at hp
      exact htr1 p hp

theorem runLoop_keys (gOk oOk : Bool) (net : Nat → Str → Except RawErr Str) (doc : Str) :
    ∀ (rem : List Agent) (i : Nat) (cur : List Agent) (ks : Keys) (tr : List (Nat × Str)),
      (runLoop gOk oOk net doc rem i cur ks tr).keys = ks ∨
      ∃ msg, (runLoop gOk oOk net doc rem i cur ks tr).keys = invalidateKeys msg ks := by
  intro rem
  induction rem with
  | nil =>
    intro i cur ks tr
    rw [runLoop_nil]
    exact Or.inl rfl
  | cons a0 rest ih =>
    intro i cur ks tr
    rw [runLoop_cons]
    cases hres : (processAgent gOk oOk (net i) a0 doc).1 with
    | ok out => exact ih (i + 1) _ ks _
    | error msg =>
      simp only []
      by_cases hk : containsStr msg apiKeyLit
      · rw [if_pos hk]
        exact Or.inr ⟨msg, rfl⟩
      · rw [if_neg hk]
        exact Or.inl rfl

theorem runWorkflow_run (net : Nat → Str → Except RawErr Str) (ks : Keys) (doc : Document)
    (agents : List Agent)
    (hg : ((agents.map (fun a => providerOf a.model)).contains ("gemini".data)
      && !(isGeminiKeySet ks)) = false)
    (ho : ((agents.map (fun a => providerOf a.model)).contains ("openai".data)
      && !(isOpenAIKeySet ks)) = false) :
    runWorkflow net ks doc agents
      = runLoop (isGeminiKeySet ks) (isOpenAIKeySet ks) net doc.content agents 0
          (agents.map resetAgent) ks [] := by
  unfold runWorkflow
  simp only [hg, ho, Bool.false_eq_true, if_false]

theorem resetAgents_getElem (agents : List Agent) (j : Nat) :
    (agents.map resetAgent)[j]? = (agents[j]?).map resetAgent :=
  List.getElem?_map resetAgent agents j

theorem resetAgents_ids (agents : List Agent) :
    (agents.map resetAgent).map Agent.id = agents.map Agent.id := by
  rw [List.map_map]
  apply List.map_congr_left
  intro a _
  rfl

theorem fencedMatch_eq_some_of {t : Str} {i j : Nat}
    (ho : leastOcc fenceOpen t i) (hc : leastOcc fenceClose (t.drop (i + 8)) j) :
    fencedMatch t = some ((t.drop (i + 8)).take j) := by
  obtain ⟨ho1, ho2⟩ := ho
  obtain ⟨hc1, hc2⟩ := hc
  unfold fencedMatch
  simp only [firstMatch_eq_some_of ho1 ho2, firstMatch_eq_some_of hc1 hc2]

theorem fencedMatch_eq_none_noOpen {t : Str} (h : ∀ i, ¬ occursAt fenceOpen t i) :
    fencedMatch t = none := by
  unfold fencedMatch
  simp only [firstMatch_eq_none_of h]

theorem fencedMatch_eq_none_noClose {t : Str} {i : Nat} (ho : leastOcc fenceOpen t i)
    (hnc : ∀ j, ¬ occursAt fenceClose (t.drop (i + 8)) j) :
    fencedMatch t = none := by
  obtain ⟨ho1, ho2⟩ := ho
  unfold fencedMatch
  simp only [firstMatch_eq_some_of ho1 ho2, firstMatch_eq_none_of hnc]

/-! ### Claim theorems -/

/-- Claim C7: for every JSON value `v`, wrapping `JSON.stringify v` in a
fenced code block tagged `json` and feeding it to the extractor returns a
value deep-equal to `v`. -/
theorem c7_extractor_round_trip (v : Json) :
    parseJsonOutput (fenceOpen ++ stringify v ++ fenceClose) = some v := by
  unfold parseJsonOutput
  rw [fencedMatch_wrap (newline_not_mem_stringify v)]
  exact jsonParse_stringify v

/-- Claim C3: the extractor is total — for every input it returns either a
parsed value or `none` — and when the chosen candidate (the fenced block,
when one exists) fails to parse, the call returns `none` without falling
through to a later candidate. -/
theorem c3_extractor_total (t : Str) :
    ((∃ v, parseJsonOutput t = some v) ∨ parseJsonOutput t = none) ∧
    (∀ s, fencedMatch t = some s → jsonParse s = none → parseJsonOutput t = none) := by
  constructor
  · match h : parseJsonOutput t with
    | some v => exact Or.inl ⟨v, rfl⟩
    | none => exact Or.inr rfl
  · intro s hs hp
    unfold parseJsonOutput
    rw [hs]
    exact hp

theorem c3_witness :
    fencedMatch ("```json\nnope\n```".data) = some ("nope".data) ∧
    jsonParse ("nope".data) = none ∧
    parseJsonOutput ("```json\nnope\n```".data) = none :=
  ⟨by decide, by decide,
   (c3_extractor_total (("```json\nnope\n```".data))).2 ("nope".data) (by decide) (by decide)⟩

/-- Text containing two balanced object literals and no fenced block, used
to refute the claimed balanced-literal extraction step. -/
def c2text : Str := "a \x7b\"a\":1\x7d b \x7b\"b\":2\x7d c".data

/-- The first balanced object literal inside `c2text`. -/
def c2obj : Str := "\x7b\"a\":1\x7d".data

/-- Claim C2, counterexample: `c2text` contains no fenced block and its
first balanced object literal parses on its own, so the claimed candidate
chain would return that object; but `parseJsonOutput` (App.tsx) falls back
to parsing the entire text and returns `none`, and `parseJsonOutputV1`
(part_001) commits to a greedy first-brace-to-last-brace span, which fails
to parse, and also returns `none`. -/
theorem c2_counterexample :
    c2text = ("a ".data) ++ c2obj ++ (" b \x7b\"b\":2\x7d c".data) ∧
    jsonParse c2obj = some (.obj [("a".data, .num 1)]) ∧
    firstMatch fenceOpen c2text = none ∧
    parseJsonOutput c2text = none ∧
    parseJsonOutputV1 c2text = none := by
  refine ⟨by decide, by decide, by decide, by decide, by decide⟩

/-- Claim C2, amended: the extractor of `src/App.tsx` attempts exactly two
candidates — the interior of the leftmost fenced `json` block whose closer
follows it, and otherwise the entire text; there is no intermediate
balanced-literal step. -/
theorem c2_fallback_order (t : Str) :
    (∀ i j, leastOcc fenceOpen t i → leastOcc fenceClose (t.drop (i + 8)) j →
      parseJsonOutput t = jsonParse ((t.drop (i + 8)).take j)) ∧
    ((∀ i, ¬ occursAt fenceOpen t i) → parseJsonOutput t = jsonParse t) ∧
    (∀ i, leastOcc fenceOpen t i → (∀ j, ¬ occursAt fenceClose (t.drop (i + 8)) j) →
      parseJsonOutput t = jsonParse t) := by
  refine ⟨?_, ?_, ?_⟩
  · intro i j hoi hcj
    unfold parseJsonOutput
    simp only [fencedMatch_eq_some_of hoi hcj]
  · intro h
    unfold parseJsonOutput
    simp only [fencedMatch_eq_none_noOpen h]
  · intro i hoi hnc
    unfold parseJsonOutput
    simp only [fencedMatch_eq_none_noClose hoi hnc]

theorem c2_witness :
    leastOcc fenceOpen ("x ```json\n1\n```".data) 2 ∧
    leastOcc fenceClose (("x ```json\n1\n```".data).drop 10) 1 ∧
    parseJsonOutput ("x ```json\n1\n```".data)
      = jsonParse (((("x ```json\n1\n```".data)).drop 10).take 1) :=
  ⟨by decide, by decide,
   (c2_fallback_order (("x ```json\n1\n```".data))).1 2 1 (by decide) (by decide)⟩

/-- Network oracle that always fails with a generic message. -/
def errNet : Nat → Str → Except RawErr Str := fun _ _ => .error ⟨"boom".data, none⟩

/-- Network oracle that always answers with a fixed non-JSON text. -/
def okNet : Nat → Str → Except RawErr Str := fun _ _ => .ok ("hi".data)

/-- Key state with only the environment Gemini key configured. -/
def gemKeys : Keys := ⟨"k".data, [], [], []⟩

/-- Key state with no keys configured at all. -/
def noKeys : Keys := ⟨[], [], [], []⟩

/-- A plain loaded text document. -/
def txtDoc : Document := ⟨"d".data, .txt⟩

/-- The empty document (no content, EMPTY type). -/
def emptyDoc : Document := ⟨[], .empty⟩

/-- A pending Gemini agent fixture. -/
def agentG0 : Agent :=
  ⟨"agent-0".data, "A".data, "p".data, "gemini/gemini-2.5-flash".data, .pending,
   none, none, none⟩

/-- A second agent sharing `agentG0`'s id, as produced by two `addAgent`
calls within the same millisecond. -/
def agentG0' : Agent := { agentG0 with name := "B".data }

/-- A second Gemini agent with a distinct id. -/
def agentG1 : Agent := { agentG0 with id := "agent-1".data, name := "B".data }

/-- An OpenAI agent fixture. -/
def agentO2 : Agent := { agentG0 with id := "agent-2".data, model := "openai/gpt-4o".data }

/-- A Success sentiment-role agent whose `outputJson` carries the label
`"Positive"`. -/
def agentSentPos : Agent :=
  { id := "agent-0".data, name := sentimentAgentName, prompt := [], model := defaultModel,
    status := .success, output := none, error := none,
    outputJson := some (.obj [("sentiment".data, .str ("Positive".data))]) }

/-- A Success sentiment-role agent carrying the given sentiment value. -/
def agentSentVal (v : Json) : Agent :=
  { agentSentPos with outputJson := some (.obj [("sentiment".data, v)]) }

/-- The default agent template fixture. -/
def tmplA : AgentTemplate := ⟨"A".data, "p".data⟩

/-- Claim C1, counterexample: with two agents sharing one id (as two
same-millisecond `addAgent` calls produce), an Error at index 0 is copied
onto the agent at index 1 as well by the id-keyed registry update, so the
later agent does not retain Pending status. -/
theorem c1_counterexample :
    ((runWorkflow errNet gemKeys txtDoc [agentG0, agentG0']).agents.map Agent.status)
      = [.error, .error] ∧
    (runWorkflow errNet gemKeys txtDoc [agentG0, agentG0']).trace
      = [(0, fullPrompt agentG0.prompt ("d".data))] := by
  refine ⟨by decide, by decide⟩

/-- Claim C1, amended: when the pre-run agent ids are pairwise distinct
and the up-front credential checks pass, an Error at index `k` halts the
run there: every agent at an index greater than `k` ends the run Pending
with absent output, error and parsed output, and every dispatched provider
call has index at most `k`. -/
theorem c1_error_halts (net : Nat → Str → Except RawErr Str) (ks : Keys) (doc : Document)
    (agents : List Agent) (hnd : (agents.map Agent.id).Nodup)
    (hg : ((agents.map (fun a => providerOf a.model)).contains ("gemini".data)
      && !(isGeminiKeySet ks)) = false)
    (ho : ((agents.map (fun a => providerOf a.model)).contains ("openai".data)
      && !(isOpenAIKeySet ks)) = false)
    (k : Nat) (a : Agent)
    (hka : (runWorkflow net ks doc agents).agents[k]? = some a)
    (hstat : a.status = .error) :
    (∀ j, k < j → ∀ b, (runWorkflow net ks doc agents).agents[j]? = some b →
      b.status = .pending ∧ b.output = none ∧ b.error = none ∧ b.outputJson = none) ∧
    (∀ p ∈ (runWorkflow net ks doc agents).trace, p.1 ≤ k) := by
  rw [runWorkflow_run net ks doc agents hg ho] at hka ⊢
  have main := runLoop_final (isGeminiKeySet ks) (isOpenAIKeySet ks) net doc.content agents hnd
    agents 0 (agents.map resetAgent) ks []
    (List.drop_zero agents).symm (resetAgents_ids agents)
    (fun j _ => resetAgents_getElem agents j)
    (fun j hj => absurd hj (Nat.not_lt_zero j))
    (fun p hp => absurd hp (List.not_mem_nil p))
    k a hka hstat
  refine ⟨?_, main.2⟩
  intro j hj b hb
  rw [main.1 j hj] at hb
  match ho2 : agents[j]? with
  | none => rw [ho2] at hb; exact absurd hb (by simp)
  | some o =>
    rw [ho2] at hb
    simp only [Option.map_some'] at hb
    rw [← Option.some_inj.mp hb]
    exact ⟨rfl, rfl, rfl, rfl⟩

theorem c1_witness :
    (resetAgent agentG1).status = .pending ∧ (resetAgent agentG1).output = none ∧
    (resetAgent agentG1).error = none ∧ (resetAgent agentG1).outputJson = none :=
  (c1_error_halts errNet gemKeys txtDoc [agentG0, agentG1] (by decide) (by decide) (by decide)
    0 { agentG0 with status := .error, error := some geminiFailedMsg } (by decide) (by decide)).1
    1 (by decide) (resetAgent agentG1) (by decide)

/-- Claim C4, counterexample: `runWorkflow` of `src/App.tsx` performs no
document check at all — with the EMPTY document it still dispatches the
agent (the trace is nonempty) and mutates its status to Success. -/
theorem c4_counterexample :
    (runWorkflow okNet gemKeys emptyDoc [agentG0]).trace
      = [(0, fullPrompt agentG0.prompt [])] ∧
    ((runWorkflow okNet gemKeys emptyDoc [agentG0]).agents.map Agent.status)
      = [.success] := by
  refine ⟨by decide, by decide⟩

/-- Claim C4, amended: only the `src/unnamed/part_001` variant checks the
document: its `runWorkflow`, given a key but an empty or EMPTY-typed
document, alerts with the load-a-document message and returns with the
agent list unchanged, an empty trace, and no aggregation performed. -/
theorem c4_empty_doc_refusal_v1 (net : Nat → Str → Except RawErr Str) (doc : Document)
    (agents : List Agent)
    (hd : (doc.content.isEmpty || doc.type == DocumentType.empty) = true) :
    runWorkflowV1 net true doc agents
      = ⟨agents, [], some v1LoadDocMsg, none, false, none⟩ := by
  unfold runWorkflowV1
  rw [if_neg (by decide), if_pos hd]

theorem c4_witness :
    runWorkflowV1 okNet true emptyDoc [agentG0]
      = ⟨[agentG0], [], some v1LoadDocMsg, none, false, none⟩ :=
  c4_empty_doc_refusal_v1 okNet emptyDoc [agentG0] (by decide)

/-- Claim C5, counterexample: with one Gemini agent and one OpenAI agent
and neither credential configured, the run refuses with only the Gemini
message; the refusal text never mentions the equally missing OpenAI
credential. -/
theorem c5_counterexample :
    (runWorkflow errNet noKeys txtDoc [agentG0, agentO2]).apiKeyError
      = some geminiRequiredMsg ∧
    containsStr geminiRequiredMsg ("OpenAI".data) = false ∧
    containsStr geminiRequiredMsg ("openai".data) = false := by
  refine ⟨by decide, by decide, by decide⟩

/-- Claim C5, amended: the credential check is made up front over the
whole agent list and refuses before any mutation — agents, keys and trace
are untouched — but it reports only the first missing provider in the
fixed gemini-then-openai order: whenever some agent references Gemini and
no Gemini credential is configured, the result is exactly the Gemini
refusal, irrespective of the OpenAI key state. -/
theorem c5_upfront_refusal (net : Nat → Str → Except RawErr Str) (ks : Keys) (doc : Document)
    (agents : List Agent)
    (hgem : (agents.map (fun a => providerOf a.model)).contains ("gemini".data) = true)
    (hkey : isGeminiKeySet ks = false) :
    runWorkflow net ks doc agents = ⟨agents, ks, [], some geminiRequiredMsg, true⟩ := by
  simp only [runWorkflow]
  rw [hgem, hkey, if_pos (show (true && !false) = true by decide)]

theorem c5_witness :
    runWorkflow errNet noKeys txtDoc [agentG0, agentO2]
      = ⟨[agentG0, agentO2], noKeys, [], some geminiRequiredMsg, true⟩ :=
  c5_upfront_refusal errNet noKeys txtDoc [agentG0, agentO2] (by decide) (by decide)

/-- Claim C6, counterexample: the aggregator guards the sentiment label
with JS truthiness before bucketing, so the empty-string label — falsy —
yields no sentiment histogram at all instead of a neutral unit count; and
a truthy non-string label makes the code call `toLowerCase` on a
non-string, raising a TypeError instead of bucketing to neutral. -/
theorem c6_counterexample :
    analyzeResults [agentSentVal (.str [])] = .ok (⟨none, none⟩, false) ∧
    analyzeResults [agentSentVal (.num 5)] = .error () := by
  refine ⟨by decide, by decide⟩

/-- Claim C6, amended: when the first Success sentiment-role agent carries
a nonempty string label, the aggregator lowercases it and contributes a
unit count to exactly one of the three buckets — positive and negative by
name, everything else to neutral. -/
theorem c6_sentiment_bucket (agents : List Agent) (a : Agent) (s : Str)
    (hfind : agents.find? (fun a =>
        a.name == sentimentAgentName && a.status == AgentStatus.success) = some a)
    (hjson : a.outputJson.bind (fun j => getField j ("sentiment".data)) = some (.str s))
    (hne : s ≠ []) :
    ((analyzeResults agents).toOption.map (fun r => r.1.sentiment))
      = some (some (bucketOf (toLowerStr s))) ∧
    (bucketOf (toLowerStr s) = ⟨1, 0, 0⟩ ∨ bucketOf (toLowerStr s) = ⟨0, 1, 0⟩ ∨
      bucketOf (toLowerStr s) = ⟨0, 0, 1⟩) ∧
    (toLowerStr s ≠ ("positive".data) → toLowerStr s ≠ ("negative".data) →
      bucketOf (toLowerStr s) = ⟨0, 0, 1⟩) := by
  have hie : s.isEmpty = false := by
    cases s with
    | nil => exact absurd rfl hne
    | cons c cs => rfl
  refine ⟨?_, ?_, ?_⟩
  · simp [analyzeResults, hfind, hjson, jsTruthy, hie, Except.toOption]
  · unfold bucketOf
    split_ifs
    · exact Or.inl rfl
    · exact Or.inr (Or.inl rfl)
    · exact Or.inr (Or.inr rfl)
  · intro h1 h2
    unfold bucketOf
    rw [if_neg h1, if_neg h2]

theorem c6_witness :
    ((analyzeResults [agentSentPos]).toOption.map (fun r => r.1.sentiment))
      = some (some (bucketOf (toLowerStr ("Positive".data)))) ∧
    bucketOf (toLowerStr ("Positive".data)) = ⟨1, 0, 0⟩ :=
  ⟨(c6_sentiment_bucket [agentSentPos] agentSentPos ("Positive".data)
      (by decide) (by decide) (by decide)).1,
   by decide⟩

/-- Claim C8, counterexample: the generated id is `agent-$\x7bDate.now()\x7d`,
so two `addAgent` calls within the same millisecond produce the same id
and the registry's ids are no longer pairwise distinct. -/
theorem c8_counterexample :
    (addAgent tmplA 0 (addAgent tmplA 0 [])).map Agent.id
      = [("agent-0".data), ("agent-0".data)] ∧
    ¬ ((addAgent tmplA 0 (addAgent tmplA 0 [])).map Agent.id).Nodup := by
  refine ⟨by decide, by decide⟩

/-- Claim C8, amended: `addAgent` appends an agent with Pending status,
absent output fields and the default model; its id is injective in the
clock reading, so it is distinct from every existing id provided no
existing agent was created at the same clock reading — uniqueness holds
only under that freshness assumption, not unconditionally. -/
theorem c8_add_unique_ids (t : AgentTemplate) (now : Nat) (agents : List Agent)
    (hfresh : ∀ a ∈ agents, a.id ≠ ("agent-".data) ++ natDigits now) :
    addAgent t now agents = agents ++ [newAgent t now] ∧
    (newAgent t now).status = .pending ∧
    (newAgent t now).output = none ∧
    (newAgent t now).error = none ∧
    (newAgent t now).outputJson = none ∧
    (newAgent t now).model = defaultModel ∧
    (∀ a ∈ agents, a.id ≠ (newAgent t now).id) ∧
    (∀ n2, n2 ≠ now → (newAgent t now).id ≠ (newAgent t n2).id) := by
  refine ⟨rfl, rfl, rfl, rfl, rfl, rfl, ?_, ?_⟩
  · intro a ha
    exact hfresh a ha
  · intro n2 hne heq
    simp only [newAgent] at heq
    exact hne (natDigits_inj (List.append_cancel_left heq)).symm

theorem c8_witness :
    addAgent tmplA 1 [newAgent tmplA 0] = [newAgent tmplA 0] ++ [newAgent tmplA 1] ∧
    (newAgent tmplA 1).status = .pending :=
  ⟨(c8_add_unique_ids tmplA 1 [newAgent tmplA 0] (by decide)).1,
   (c8_add_unique_ids tmplA 1 [newAgent tmplA 0] (by decide)).2.1⟩

/-- Claim C9: every prompt dispatched to a provider during a run is built
from the document content and the dispatched agent's own stored prompt
alone; consequently two runs over the same agents and document — however
their networks differ, in particular in every earlier agent's output —
dispatch identical prompt text at any position reached by both. -/
theorem c9_prompt_noninterference (ks : Keys) (doc : Document) (agents : List Agent)
    (net1 net2 : Nat → Str → Except RawErr Str) :
    (∀ p ∈ (runWorkflow net1 ks doc agents).trace,
      ∃ a, agents[p.1]? = some a ∧ p.2 = fullPrompt a.prompt doc.content) ∧
    (∀ p q, p ∈ (runWorkflow net1 ks doc agents).trace →
      q ∈ (runWorkflow net2 ks doc agents).trace → p.1 = q.1 → p.2 = q.2) := by
  have key : ∀ (net : Nat → Str → Except RawErr Str) p,
      p ∈ (runWorkflow net ks doc agents).trace →
      ∃ a, agents[p.1]? = some a ∧ p.2 = fullPrompt a.prompt doc.content := by
    intro net p hp
    simp only [runWorkflow] at hp
    split at hp
    · exact absurd hp (List.not_mem_nil p)
    · split at hp
      · exact absurd hp (List.not_mem_nil p)
      · rcases runLoop_trace (isGeminiKeySet ks) (isOpenAIKeySet ks) net doc.content agents
          agents 0 (agents.map resetAgent) ks [] (List.drop_zero agents).symm p hp with
          hin | found
        · exact absurd hin (List.not_mem_nil p)
        · exact found
  refine ⟨key net1, ?_⟩
  intro p q hp hq hpq
  obtain ⟨a1, ha1, he1⟩ := key net1 p hp
  obtain ⟨a2, ha2, he2⟩ := key net2 q hq
  rw [hpq] at ha1
  rw [he1, he2, Option.some_inj.mp (ha1.symm.trans ha2)]

theorem c9_witness :
    ((0 : Nat), fullPrompt agentG0.prompt ("d".data)).2
      = ((0 : Nat), fullPrompt agentG0.prompt ("d".data)).2 :=
  (c9_prompt_noninterference gemKeys txtDoc [agentG0] okNet errNet).2
    (0, fullPrompt agentG0.prompt ("d".data)) (0, fullPrompt agentG0.prompt ("d".data))
    (by decide) (by decide) rfl

/-- Claim C10: a run never changes the environment-provided keys — the
catch handler clears only user-supplied stored keys — and whenever an
environment key is configured the effective credential consulted by
subsequent runs is unchanged by any invalidation. -/
theorem c10_env_keys_preserved (net : Nat → Str → Except RawErr Str) (ks : Keys)
    (doc : Document) (agents : List Agent) :
    ((runWorkflow net ks doc agents).keys.envGemini = ks.envGemini ∧
     (runWorkflow net ks doc agents).keys.envOpenai = ks.envOpenai) ∧
    (∀ msg, (invalidateKeys msg ks).envGemini = ks.envGemini ∧
      (invalidateKeys msg ks).envOpenai = ks.envOpenai) ∧
    (∀ msg, ks.envGemini ≠ [] →
      effectiveGemini (invalidateKeys msg ks) = effectiveGemini ks) ∧
    (∀ msg, ks.envOpenai ≠ [] →
      effectiveOpenai (invalidateKeys msg ks) = effectiveOpenai ks) := by
  refine ⟨?_, fun msg => ⟨rfl, rfl⟩, ?_, ?_⟩
  · have hk : (runWorkflow net ks doc agents).keys = ks ∨
        ∃ msg, (runWorkflow net ks doc agents).keys = invalidateKeys msg ks := by
      simp only [runWorkflow]
      split
      · exact Or.inl rfl
      · split
        · exact Or.inl rfl
        · exact runLoop_keys (isGeminiKeySet ks) (isOpenAIKeySet ks) net doc.content agents 0
            (agents.map resetAgent) ks []
    rcases hk with h | ⟨msg, h⟩
    · rw [h]; exact ⟨rfl, rfl⟩
    · rw [h]; exact ⟨rfl, rfl⟩
  · intro msg hne
    have hie : ks.envGemini.isEmpty = false := by
      cases hh : ks.envGemini with
      | nil => exact absurd hh hne
      | cons c cs => rfl
    simp [effectiveGemini, invalidateKeys, hie]
  · intro msg hne
    have hie : ks.envOpenai.isEmpty = false := by
      cases hh : ks.envOpenai with
      | nil => exact absurd hh hne
      | cons c cs => rfl
    simp [effectiveOpenai, invalidateKeys, hie]

theorem c10_witness :
    effectiveGemini (invalidateKeys ("gemini API key".data) gemKeys)
      = effectiveGemini gemKeys :=
  (c10_env_keys_preserved errNet gemKeys txtDoc []).2.2.1 ("gemini API key".data) (by decide)

end DocReview
